import Mathlib

/-!
Verification development for the citation intelligence graph engine.

Shallow embedding of the engine's components, translated from the source:
* `Cite`      — `src/utils/citation_parser.py` (regex-based citation parsing)
* `Store`     — `src/db/repositories/citation_repo.py` (subgraph traversal)
* `Conf`      — `src/services/graph/conflict_detector.py`
* `Resolve`   — `src/services/graph/citation_resolver.py`
* `Authority` — `src/services/graph/authority_analyzer.py`

Strings are modelled as `List Char`; machine floats are modelled as `ℚ`
(the scoring arithmetic involves no float-specific behaviour relevant to
the claims); SQL result sets are modelled as Lean lists in row order.
-/

namespace Cite

/-- Python's `\d` restricted to ASCII digits, which is what the citation
grammar is designed to match (`Char.isDigit` is exactly `'0' ≤ c ≤ '9'`). -/
def isPyDigit (c : Char) : Bool := c.isDigit

/-- Python's `\s` whitespace class (ASCII part): space, tab, LF, CR, VT, FF. -/
def isPySpace (c : Char) : Bool :=
  c = ' ' || c = '\t' || c = '\n' || c = '\r' || c = '\x0b' || c = '\x0c'

/-- A compiled reporter-pattern token: a literal character, or `\s*`
(an arbitrary run of whitespace).  Every reporter regex in the source
uses only literal characters, `\.`, `\s*` and the alternation
`(?:'|')` whose two branches are the same apostrophe character. -/
inductive RTok where
  | lit (c : Char)
  | ws
deriving DecidableEq, Repr

/-- Compile one reporter regex from the source table into tokens.
`\.` is a literal dot, `\s*` is a whitespace run, and the apostrophe
alternation reduces to a literal apostrophe. -/
def compileRep : List Char → List RTok
  | '\\' :: '.' :: r => .lit '.' :: compileRep r
  | '\\' :: 's' :: '*' :: r => .ws :: compileRep r
  | '(' :: '?' :: ':' :: '\'' :: '|' :: '\'' :: ')' :: 'x' :: r => .lit '\'' :: .lit 'x' :: compileRep r
  | c :: r => .lit c :: compileRep r
  | [] => []

/-- The apostrophe character used in the `F. App'x` reporter pattern. -/
def apos : Char := '\''

/-- `FEDERAL_REPORTERS`, in source order (longest-first within each family). -/
def FEDERAL_REPORTERS : List (List Char) :=
  [ "F\\.\\s*Supp\\.\\s*3d".toList
  , "F\\.\\s*Supp\\.\\s*2d".toList
  , "F\\.\\s*Supp\\.".toList
  , "F\\.\\s*App(?:".toList ++ [apos, '|', apos] ++ ")x".toList
  , "F\\.4th".toList
  , "F\\.3d".toList
  , "F\\.2d".toList
  , "L\\.\\s*Ed\\.\\s*2d".toList
  , "S\\.\\s*Ct\\.".toList
  , "U\\.S\\.".toList
  , "B\\.R\\.".toList ]

/-- `STATE_REPORTERS`, in source order. -/
def STATE_REPORTERS : List (List Char) :=
  [ "N\\.Y\\.S\\.3d".toList
  , "N\\.Y\\.S\\.2d".toList
  , "N\\.Y\\.3d".toList
  , "N\\.Y\\.2d".toList
  , "N\\.Y\\.".toList
  , "Cal\\.\\s*Rptr\\.\\s*3d".toList
  , "Cal\\.\\s*Rptr\\.\\s*2d".toList
  , "Cal\\.\\s*Rptr\\.".toList
  , "Cal\\.5th".toList
  , "Cal\\.4th".toList
  , "Cal\\.3d".toList
  , "Cal\\.2d".toList
  , "Cal\\.".toList
  , "Ill\\.2d".toList
  , "Ill\\.\\s*App\\.\\s*3d".toList
  , "Ill\\.\\s*App\\.\\s*2d".toList
  , "Mass\\.".toList
  , "Pa\\.\\s*Super\\.".toList
  , "Pa\\.".toList
  , "Ohio\\s*St\\.\\s*3d".toList
  , "Ohio\\s*St\\.\\s*2d".toList
  , "N\\.J\\.\\s*Super\\.".toList
  , "N\\.J\\.".toList
  , "A\\.3d".toList
  , "A\\.2d".toList
  , "N\\.E\\.3d".toList
  , "N\\.E\\.2d".toList
  , "N\\.W\\.2d".toList
  , "S\\.E\\.2d".toList
  , "S\\.W\\.3d".toList
  , "S\\.W\\.2d".toList
  , "P\\.3d".toList
  , "P\\.2d".toList
  , "So\\.\\s*3d".toList
  , "So\\.\\s*2d".toList ]

/-- `ALL_REPORTERS = FEDERAL_REPORTERS + STATE_REPORTERS` (order preserved). -/
def ALL_REPORTERS : List (List Char) := FEDERAL_REPORTERS ++ STATE_REPORTERS

/-- The compiled, ordered reporter alternation of `_CITATION_RE`. -/
def reporterToks : List (List RTok) := ALL_REPORTERS.map compileRep

/-- The literal (non-whitespace-class) characters of a compiled pattern. -/
def litChars : List RTok → List Char
  | [] => []
  | .lit c :: r => c :: litChars r
  | .ws :: r => litChars r

/-- Match a compiled reporter pattern at the head of `s`, returning the
matched characters and the remainder.  `\s*` greedily takes the whole
whitespace run; since in every source pattern `\s*` is followed by a
non-whitespace literal, regex backtracking into a shorter run can never
succeed either, so this deterministic choice is faithful. -/
def matchRep : List RTok → List Char → Option (List Char × List Char)
  | [], s => some ([], s)
  | .lit c :: ts, x :: r =>
      if x = c then (matchRep ts r).map (fun p => (x :: p.1, p.2)) else none
  | .lit _ :: _, [] => none
  | .ws :: ts, s =>
      let sp := s.takeWhile isPySpace
      (matchRep ts (s.drop sp.length)).map (fun p => (sp ++ p.1, p.2))

/-- `int()` on a digit group. -/
def digitsToNat (l : List Char) : Nat :=
  l.foldl (fun a c => a * 10 + (c.toNat - '0'.toNat)) 0

/-- `ParsedCitation` from `citation_parser.py`. -/
structure ParsedCitation where
  volume : Nat
  reporter : String
  page : Nat
  pinpoint : Option Nat
  year : Option Nat
  raw_text : String
deriving DecidableEq, Repr

/-- Collapse each internal whitespace run to a single space
(`re.sub(r"\s+", " ", reporter)`). -/
def collapseWs : List Char → List Char
  | [] => []
  | [c] => if isPySpace c then [' '] else [c]
  | c :: d :: r =>
      if isPySpace c && isPySpace d then collapseWs (d :: r)
      else (if isPySpace c then ' ' else c) :: collapseWs (d :: r)

/-- `str.strip()` on the whitespace class. -/
def stripWs (l : List Char) : List Char :=
  ((l.dropWhile isPySpace).reverse.dropWhile isPySpace).reverse

/-- `_normalize_reporter`: collapse whitespace runs, then strip. -/
def normalizeReporter (l : List Char) : List Char := stripWs (collapseWs l)

/-- Non-whitespace character predicate used to compare reporter shapes. -/
def notSpace (c : Char) : Bool := !isPySpace c

/-- Separator class of the optional pinpoint group, `[,\s]+`. -/
def isPinSep (c : Char) : Bool := c = ',' || isPySpace c

/-- The optional pinpoint group `(?:[,\s]+(?P<pinpoint>\d{1,5}))?`.
Returns (value, consumed characters, remainder); on group failure nothing
is consumed.  `[,\s]+` greedily takes the whole separator run; a shorter
run would still be followed by a separator character, never a digit, so
backtracking inside the run cannot succeed either. -/
def matchPinpoint (s : List Char) : Option Nat × List Char × List Char :=
  let sep := s.takeWhile isPinSep
  if sep.isEmpty then (none, [], s)
  else
    let t := s.drop sep.length
    let pd := t.takeWhile isPyDigit
    if pd.isEmpty then (none, [], s)
    else
      let pdm := pd.take 5
      (some (digitsToNat pdm), sep ++ pdm, t.drop pdm.length)

/-- The optional year group `(?:\s*\((?P<year>\d{4})\))?`.
Returns (value, consumed characters, remainder); nothing consumed on
failure.  `\s*` greedily takes the run; shorter runs leave a whitespace
character where `\(` is required, so the choice is again deterministic. -/
def matchYear (s : List Char) : Option Nat × List Char × List Char :=
  let sp := s.takeWhile isPySpace
  match s.drop sp.length with
  | '(' :: d1 :: d2 :: d3 :: d4 :: ')' :: rest =>
      if isPyDigit d1 && isPyDigit d2 && isPyDigit d3 && isPyDigit d4 then
        (some (digitsToNat [d1, d2, d3, d4]),
         sp ++ '(' :: d1 :: d2 :: d3 :: d4 :: [')'], rest)
      else (none, [], s)
  | _ => (none, [], s)

/-- Continuation of `_CITATION_RE` after the reporter group:
`\s+ page (pinpoint)? (year)?`.  The page group `\d{1,5}` greedily takes
the first five digits of the run; since everything after it is optional
the overall match then always succeeds, so no backtracking into a shorter
page is possible. -/
def matchTail (vol : Nat) (volRaw sp1 repRaw s : List Char) :
    Option (ParsedCitation × List Char) :=
  let sp2 := s.takeWhile isPySpace
  if sp2.isEmpty then none
  else
    let s1 := s.drop sp2.length
    let pg := s1.takeWhile isPyDigit
    if pg.isEmpty then none
    else
      let pgm := pg.take 5
      let s2 := s1.drop pgm.length
      let pin := matchPinpoint s2
      let yr := matchYear pin.2.2
      some
        ({ volume := vol
           reporter := ⟨normalizeReporter repRaw⟩
           page := digitsToNat pgm
           pinpoint := pin.1
           year := yr.1
           raw_text :=
             ⟨stripWs (volRaw ++ sp1 ++ repRaw ++ sp2 ++ pgm ++ pin.2.1 ++ yr.2.1)⟩ },
         yr.2.2)

/-- Ordered alternation over the reporter table: each alternative is tried
in turn, and on success the continuation is attempted; if the continuation
fails the next alternative is tried (regex alternation backtracking). -/
def tryReps (vol : Nat) (volRaw sp1 : List Char) :
    List (List RTok) → List Char → Option (ParsedCitation × List Char)
  | [], _ => none
  | toks :: rest, s =>
      match matchRep toks s with
      | some (m, s') =>
          match matchTail vol volRaw sp1 m s' with
          | some res => some res
          | none => tryReps vol volRaw sp1 rest s
      | none => tryReps vol volRaw sp1 rest s

/-- Attempt `_CITATION_RE` anchored at the head of `s`.  The volume group
`\d{1,4}` can only match when the digit run at the head has length 1–4:
taking fewer than the whole run leaves a digit where `\s+` must match. -/
def matchAt (s : List Char) : Option (ParsedCitation × List Char) :=
  let vr := s.takeWhile isPyDigit
  if vr.isEmpty || decide (4 < vr.length) then none
  else
    let s1 := s.drop vr.length
    let sp1 := s1.takeWhile isPySpace
    if sp1.isEmpty then none
    else tryReps (digitsToNat vr) vr sp1 reporterToks (s1.drop sp1.length)

/-- `re.search` semantics: the match at the leftmost position where one
exists, together with the remainder of the text after the match. -/
def searchAt : List Char → Option (ParsedCitation × List Char)
  | [] => matchAt []
  | c :: t =>
      match matchAt (c :: t) with
      | some r => some r
      | none => searchAt t

/-- `parse_citation`: first match in the text, or `none`. -/
def parse_citation (text : String) : Option ParsedCitation :=
  (searchAt text.toList).map (·.1)

/-- Bounded iteration for `re.finditer`: every match consumes at least one
character, so `s.length + 1` rounds always suffice (`finditerFuel_congr`);
the bound exists only to keep the recursion structural. -/
def finditerFuel : Nat → List Char → List ParsedCitation
  | 0, _ => []
  | fuel + 1, s =>
      match searchAt s with
      | none => []
      | some (p, r) => p :: finditerFuel fuel r

/-- `re.finditer` semantics: the non-overlapping matches, scanning left to
right, each search resuming where the previous match ended. -/
def finditer (s : List Char) : List ParsedCitation := finditerFuel (s.length + 1) s

/-- The de-duplication key `(volume, reporter, page)`. -/
def citeKey (p : ParsedCitation) : Nat × String × Nat := (p.volume, p.reporter, p.page)

/-- De-duplication loop of `extract_citations`: keep a match unless its
`(volume, reporter, page)` key was already seen. -/
def dedupByKey : List ParsedCitation → List (Nat × String × Nat) → List ParsedCitation
  | [], _ => []
  | p :: ps, seen =>
      if citeKey p ∈ seen then dedupByKey ps seen
      else p :: dedupByKey ps (citeKey p :: seen)

/-- `extract_citations`: all non-overlapping matches, de-duplicated by
`(volume, reporter, page)`, first occurrence kept. -/
def extract_citations (text : String) : List ParsedCitation :=
  dedupByKey (finditer text.toList) []

/-- Claim-side characterization of the de-duplication: keep each match
whose key has not occurred earlier in the match list (so the first
occurrence of each `(volume, reporter, page)` triple survives, with its
pinpoint and year). -/
def keepFirsts : List ParsedCitation → List ParsedCitation
  | [] => []
  | p :: ps =>
      p :: keepFirsts (ps.filter (fun q => decide (citeKey q ≠ citeKey p)))
termination_by l => l.length
decreasing_by
  exact Nat.lt_succ_of_le (List.length_filter_le _ _)

end Cite

namespace Store

/-- An `opinions` table row, restricted to the columns the subgraph query
reads (`id`, `case_name`, `court_id`). -/
structure OpinionRow where
  id : Nat
  case_name : String
  court_id : String
deriving DecidableEq, Repr

/-- A `citations` table row, restricted to the columns the traversal
reads: `citing_opinion_id` (non-null) and `cited_opinion_id` (nullable). -/
structure CitationRow where
  citing_opinion_id : Nat
  cited_opinion_id : Option Nat
deriving DecidableEq, Repr

/-- The database state the traversal runs against. -/
structure Db where
  opinions : List OpinionRow
  citations : List CitationRow
deriving Repr

/-- One row of the subgraph result set:
`(opinion_id, depth, case_name, court_id)`. -/
structure SubRow where
  opinion_id : Nat
  depth : Nat
  case_name : String
  court_id : String
deriving DecidableEq, Repr

/-- One traversal step in the `outgoing` direction: follow
`citing → cited` edges; rows with a NULL `cited_opinion_id` are
filtered out by the `is_not(None)` guard. -/
def outStep (db : Db) (n : Nat) : List Nat :=
  db.citations.filterMap (fun c => if c.citing_opinion_id = n then c.cited_opinion_id else none)

/-- One traversal step in the `incoming` direction: follow
`cited → citing` edges (SQL `cited_opinion_id = n` can only hold for
non-NULL values). -/
def inStep (db : Db) (n : Nat) : List Nat :=
  db.citations.filterMap (fun c => if c.cited_opinion_id = some n then some c.citing_opinion_id else none)

/-- The per-node expansion selected by `direction`; the `both` branch is
the `UNION ALL` of the outgoing and incoming parts. -/
def dirStep (db : Db) (direction : String) (n : Nat) : List Nat :=
  if direction = "outgoing" then outStep db n
  else if direction = "incoming" then inStep db n
  else if direction = "both" then outStep db n ++ inStep db n
  else []

/-- The multiset of opinion ids derivable by the recursive CTE at depth
exactly `k`: the base query contributes the root at depth 0, and each
recursive iteration expands every depth-`k` row (the `depth < max_depth`
guard is accounted for in `minDepth` via the `k ≤ max_depth` range). -/
def frontier (db : Db) (direction : String) (root : Nat) : Nat → List Nat
  | 0 => [root]
  | k + 1 => (frontier db direction root k).flatMap (dirStep db direction)

/-- `DISTINCT ON (opinion_id) ... ORDER BY (opinion_id, depth)` keeps, for
each opinion id, the smallest depth among the derivable `(id, depth)`
pairs; a pair is derivable iff its depth is at most `max_depth` and the
id is in the frontier at that depth. -/
def minDepth (db : Db) (direction : String) (root : Nat) (max_depth : Nat) (m : Nat) :
    Option Nat :=
  (List.range (max_depth + 1)).find? (fun k => m ∈ frontier db direction root k)

/-- The error message raised for an unrecognized direction. -/
def directionError (direction : String) : String :=
  "direction must be outgoing, incoming, or both, got " ++ direction

/-- `CitationRepo.get_citation_subgraph`: recursive-CTE traversal from a
root, one row per distinct reachable opinion at its minimum depth, joined
against the `opinions` table; an unrecognized `direction` raises
`ValueError`.  Result order (`ORDER BY opinion_id`) is modelled as the
`opinions`-list order, which none of the verified properties depend on. -/
def get_citation_subgraph (db : Db) (root_opinion_id : Nat) (max_depth : Nat)
    (direction : String) : Except String (List SubRow) :=
  if direction = "outgoing" ∨ direction = "incoming" ∨ direction = "both" then
    .ok (db.opinions.filterMap (fun op =>
      (minDepth db direction root_opinion_id max_depth op.id).map (fun d =>
        { opinion_id := op.id, depth := d, case_name := op.case_name,
          court_id := op.court_id })))
  else
    .error (directionError direction)

/-- Walks of a given length from the root along the direction's step
relation — the specification-side notion of hop distance. -/
inductive Walk (db : Db) (direction : String) (root : Nat) : Nat → Nat → Prop where
  | zero : Walk db direction root root 0
  | succ {n k m} : Walk db direction root n k → m ∈ dirStep db direction n →
      Walk db direction root m (k + 1)

end Store

namespace Conf

/-- A joined opinion-with-completed-extraction row, as produced by
`_load_opinions_with_extractions` (columns the detector reads).
`date_filed` is a day number; the SQL `date` column is non-nullable, so
the `isinstance(..., date)` guard in `_score_confidence` always holds. -/
structure OpinionX where
  opinion_id : Nat
  court_id : String
  court_level : String
  case_name : String
  date_filed : Int
  disposition : String
  legal_topics : List String
deriving DecidableEq, Repr

/-- A citation edge row, restricted to the columns
`_find_citation_overlap` reads. -/
structure CiteRow where
  citing_opinion_id : Nat
  citation_string : String
  citation_type : String
deriving DecidableEq, Repr

/-- `Conflict` (the fields the detector constructs; `detected_at` is the
invocation timestamp, carried as the `today` day number). -/
structure Conflict where
  opinion_a_id : Nat
  opinion_b_id : Nat
  topic : String
  court_a : String
  court_b : String
  description : String
  confidence : ℚ
  detected_at : Int
  status : String
deriving DecidableEq, Repr

/-- `_OPPOSING_DISPOSITIONS` (the `Disposition` StrEnum members are their
string values). -/
def OPPOSING_DISPOSITIONS : List (String × String) :=
  [ ("affirmed", "reversed"), ("reversed", "affirmed")
  , ("affirmed", "vacated"), ("vacated", "affirmed")
  , ("affirmed", "reversed_in_part"), ("reversed_in_part", "affirmed") ]

/-- `_CONFLICTING_CITATION_PAIRS`. -/
def CONFLICTING_CITATION_PAIRS : List (String × String) :=
  [ ("followed", "distinguished"), ("distinguished", "followed")
  , ("followed", "overruled"), ("overruled", "followed") ]

/-- `_COURT_LEVEL_WEIGHT` with its `.get(..., 0.3)` default. -/
def COURT_LEVEL_WEIGHT (level : String) : ℚ :=
  if level = "supreme" then 1
  else if level = "appellate" then 8/10
  else if level = "state_supreme" then 7/10
  else if level = "state_appellate" then 5/10
  else if level = "district" then 4/10
  else if level = "state_trial" then 3/10
  else if level = "bankruptcy" then 2/10
  else if level = "specialized" then 3/10
  else 3/10

/-- `itertools.combinations(opinions, 2)`, in iteration order. -/
def pairsOf {α : Type} : List α → List (α × α)
  | [] => []
  | x :: xs => xs.map (fun y => (x, y)) ++ pairsOf xs

/-- Distinct shared topics, `set(topics_a) & set(topics_b)`; the list
carries one representative per element of the intersection. -/
def topicOverlap (a b : List String) : List String :=
  a.dedup.filter (fun t => t ∈ b)

/-- The citation-string → citation-type dict built per opinion
(`{row.citation_string: row.citation_type}` — on duplicate strings the
last row wins, as in a Python dict comprehension). -/
def citeTypeOf (cits : List CiteRow) (op : Nat) (s : String) : Option String :=
  ((cits.filter (fun c => c.citing_opinion_id = op)).reverse.find?
      (fun c => c.citation_string = s)).map (fun c => c.citation_type)

/-- Distinct citation strings cited by `op`. -/
def citeStringsOf (cits : List CiteRow) (op : Nat) : List String :=
  ((cits.filter (fun c => c.citing_opinion_id = op)).map (fun c => c.citation_string)).dedup

/-- `_find_citation_overlap`: the shared cited-authority strings with both
opinions' citation types.  Python iterates a set intersection in
unspecified order; only the count and an existential over the list are
consumed, so list order is irrelevant and modelled as `a`'s order. -/
def citationOverlap (cits : List CiteRow) (opa opb : Nat) :
    List (String × Option String × Option String) :=
  ((citeStringsOf cits opa).filter (fun s => s ∈ citeStringsOf cits opb)).map
    (fun s => (s, citeTypeOf cits opa s, citeTypeOf cits opb s))

/-- Python `round(x, 4)`: round to the nearest multiple of `1/10^4`, ties
to even (modelled on exact rationals). -/
def pyRound4 (x : ℚ) : ℚ :=
  let y := x * 10000
  let f := ⌊y⌋
  let n :=
    if y - f < 1/2 then f
    else if y - f > 1/2 then f + 1
    else if f % 2 = 0 then f else f + 1
  (n : ℚ) / 10000

/-- `_score_confidence`, translated line by line.  Both `date_filed`
columns are non-nullable dates, so the recency term always contributes.
`today` is `date.today()` as a day number. -/
def score_confidence (today : Int) (a b : OpinionX)
    (topic_overlap_count citation_overlap_count : Nat)
    (has_opposing_disposition has_conflicting_citations : Bool) : ℚ :=
  let score : ℚ := 0
  let score := score + (if has_opposing_disposition then 30/100 else 0)
  let score := score + (if has_conflicting_citations then 25/100 else 0)
  let score := score + min ((topic_overlap_count : ℚ) / 5) 1 * (15/100)
  let score := score + min ((citation_overlap_count : ℚ) / 3) 1 * (15/100)
  let level_a := COURT_LEVEL_WEIGHT a.court_level
  let level_b := COURT_LEVEL_WEIGHT b.court_level
  let score := score + (level_a + level_b) / 2 * (10/100)
  let age_a : ℚ := ((today - a.date_filed : Int) : ℚ) / (36525/100)
  let age_b : ℚ := ((today - b.date_filed : Int) : ℚ) / (36525/100)
  let avg_age := (age_a + age_b) / 2
  let score := score + max 0 (1 - avg_age / 20) * (5/100)
  min score 1

/-- `_build_description`. -/
def build_description (a b : OpinionX)
    (has_opposing_disposition has_conflicting_citations : Bool) : String :=
  let p1 : List String :=
    if has_opposing_disposition then
      [a.court_id ++ " (" ++ a.case_name ++ ") reached " ++ a.disposition ++
        " while " ++ b.court_id ++ " (" ++ b.case_name ++ ") reached " ++ b.disposition]
    else []
  let parts := p1 ++
    (if has_conflicting_citations then
      [a.court_id ++ " and " ++ b.court_id ++ " treat shared authorities differently"]
    else [])
  if parts.isEmpty then "Potential circuit split detected"
  else String.intercalate "; " parts

/-- `sorted(topic_overlap)[:3]` joined by a comma — Python sorts strings
by code points, which is `List Char` lexicographic order. -/
def topicLabel (overlap : List String) : String :=
  String.intercalate ", " ((overlap.mergeSort (fun x y => decide (x ≤ y))).take 3)

/-- `(disp_a, disp_b) in _OPPOSING_DISPOSITIONS`. -/
def hasOpposing (a b : OpinionX) : Bool :=
  decide ((a.disposition, b.disposition) ∈ OPPOSING_DISPOSITIONS)

/-- One overlap entry exhibits opposing citation types. -/
def conflictingEntry (t : String × Option String × Option String) : Bool :=
  match t.2.1, t.2.2 with
  | some ta, some tb => decide ((ta, tb) ∈ CONFLICTING_CITATION_PAIRS)
  | _, _ => false

/-- `any((ct_a, ct_b) in _CONFLICTING_CITATION_PAIRS ...)`. -/
def hasConflicting (cits : List CiteRow) (ida idb : Nat) : Bool :=
  (citationOverlap cits ida idb).any conflictingEntry

/-- `_evaluate_pair`. -/
def evaluate_pair (today : Int) (cits : List CiteRow) (a b : OpinionX) : Option Conflict :=
  let overlap := topicOverlap a.legal_topics b.legal_topics
  if overlap.isEmpty then none
  else
    let has_opposing := hasOpposing a b
    let cite_overlap := citationOverlap cits a.opinion_id b.opinion_id
    let has_conflicting := hasConflicting cits a.opinion_id b.opinion_id
    if ¬ has_opposing ∧ ¬ has_conflicting then none
    else some
      { opinion_a_id := a.opinion_id
        opinion_b_id := b.opinion_id
        topic := topicLabel overlap
        court_a := a.court_id
        court_b := b.court_id
        description := build_description a b has_opposing has_conflicting
        confidence := pyRound4 (score_confidence today a b overlap.length
          cite_overlap.length has_opposing has_conflicting)
        detected_at := today
        status := "detected" }

/-- `tuple(sorted(pair))` on court-id strings. -/
def sortPair (p : String × String) : String × String :=
  if p.1 ≤ p.2 then p else (p.2, p.1)

/-- Stable descending sort by confidence (`list.sort(key=..., reverse=True)`
is a stable sort; any stable sort computes the same list). -/
def sortByConfDesc (l : List Conflict) : List Conflict :=
  l.mergeSort (fun x y => decide (y.confidence ≤ x.confidence))

/-- `detect_conflicts`: all cross-court pairs of opinions with completed
extractions (list as returned by the loading query), optionally
restricted to an allow-list of unordered court pairs, evaluated and
filtered by `min_confidence`, sorted by confidence descending. -/
def detect_conflicts (today : Int) (opinions : List OpinionX) (cits : List CiteRow)
    (court_pairs : Option (List (String × String))) (min_confidence : ℚ) :
    List Conflict :=
  if opinions.length < 2 then []
  else
    let pair_set := court_pairs.map (fun ps => ps.map sortPair)
    let conflicts := (pairsOf opinions).filterMap (fun ab =>
      if ab.1.court_id = ab.2.court_id then none
      else if (match pair_set with
               | some ps => decide (sortPair (ab.1.court_id, ab.2.court_id) ∉ ps)
               | none => false) then none
      else match evaluate_pair today cits ab.1 ab.2 with
        | some c => if min_confidence ≤ c.confidence then some c else none
        | none => none)
    sortByConfDesc conflicts

/-- Average age in years of the two opinions from `today` (365.25-day
years, as the code computes from `.days`). -/
def ageYears (today : Int) (op : OpinionX) : ℚ :=
  ((today - op.date_filed : Int) : ℚ) / (36525/100)

/-- Claim-side definition, stated from the spec's words: the §4.4
per-tier table scaled to `[0,1]`, under which `specialized` and unknown
tiers map to `0.25`. -/
def specCourtWeight (level : String) : ℚ :=
  (if level = "supreme" then 100
   else if level = "appellate" then 80
   else if level = "state_supreme" then 70
   else if level = "state_appellate" then 50
   else if level = "district" then 40
   else if level = "state_trial" then 30
   else if level = "bankruptcy" then 20
   else if level = "specialized" then 25
   else 25) / 100

/-- The confidence formula exactly as the claim states it: weighted sum
with the §4.4 court-level table scaled to `[0,1]`, capped at 1.0. -/
def claimConfidenceStated (today : Int) (cits : List CiteRow) (a b : OpinionX) : ℚ :=
  min ((if hasOpposing a b then 30/100 else 0)
    + (if hasConflicting cits a.opinion_id b.opinion_id then 25/100 else 0)
    + (15/100) * min (((topicOverlap a.legal_topics b.legal_topics).length : ℚ) / 5) 1
    + (15/100) * min (((citationOverlap cits a.opinion_id b.opinion_id).length : ℚ) / 3) 1
    + (10/100) * ((specCourtWeight a.court_level + specCourtWeight b.court_level) / 2)
    + (5/100) * max 0 (1 - ((ageYears today a + ageYears today b) / 2) / 20)) 1

/-- The amended confidence formula: as the claim states it except that the
court-level weights come from the conflict detector's own table
(`specialized` and unknown tiers weigh `0.3`), and the capped total is
rounded to four decimal places. -/
def claimConfidenceAmended (today : Int) (cits : List CiteRow) (a b : OpinionX) : ℚ :=
  pyRound4 (min ((if hasOpposing a b then 30/100 else 0)
    + (if hasConflicting cits a.opinion_id b.opinion_id then 25/100 else 0)
    + (15/100) * min (((topicOverlap a.legal_topics b.legal_topics).length : ℚ) / 5) 1
    + (15/100) * min (((citationOverlap cits a.opinion_id b.opinion_id).length : ℚ) / 3) 1
    + (10/100) * ((COURT_LEVEL_WEIGHT a.court_level + COURT_LEVEL_WEIGHT b.court_level) / 2)
    + (5/100) * max 0 (1 - ((ageYears today a + ageYears today b) / 2) / 20)) 1)

/-- Concrete input for the C1 refutation: two opinions from different
courts of the `specialized` tier, one shared topic, opposing
dispositions, filed on the invocation day. -/
def exOpA : OpinionX := ⟨1, "ca1", "specialized", "A", 0, "affirmed", ["t1"]⟩

/-- Second opinion of the concrete pair. -/
def exOpB : OpinionX := ⟨2, "ca2", "specialized", "B", 0, "reversed", ["t1", "t2"]⟩

/-- The conflict the detector reports for `exOpA`/`exOpB`. -/
def exConflict : Conflict := ⟨1, 2, "t1", "ca1", "ca2",
  "ca1 (A) reached affirmed while ca2 (B) reached reversed", 41/100, 0, "detected"⟩

end Conf

namespace Resolve

/-- A calendar date `(year, month, day)` with SQL's date ordering
(lexicographic). -/
structure DateD where
  year : Int
  month : Int
  day : Int
deriving DecidableEq, Repr

/-- Date comparison (lexicographic on year, month, day). -/
def dateLt (a b : DateD) : Bool :=
  decide (a.year < b.year) ||
    (decide (a.year = b.year) && (decide (a.month < b.month) ||
      (decide (a.month = b.month) && decide (a.day < b.day))))

/-- Date `≤` (lexicographic). -/
def dateLe (a b : DateD) : Bool := dateLt a b || decide (a = b)

/-- An `opinions` row restricted to the columns the resolver reads. -/
structure OpinionR where
  id : Nat
  case_name : String
  date_filed : DateD
  raw_text : String
deriving DecidableEq, Repr

/-- `CitedAuthority` (input value object). -/
structure CitedAuthority where
  citation_string : String
  case_name : Option String
  citation_context : String
  citation_type : String
  paragraph_context : String
deriving DecidableEq, Repr

/-- `CitationEdge` as produced by `resolve_citations`. -/
structure CitationEdge where
  citing_opinion_id : Nat
  cited_opinion_id : Option Nat
  citation_string : String
  cited_case_name : Option String
  citation_context : String
  citation_type : String
  paragraph_context : String
deriving DecidableEq, Repr

/-- A SQL LIKE pattern token: `%` (any run), `_` (any one character), or a
literal character. -/
inductive LTok where
  | pct
  | one
  | ch (c : Char)
deriving DecidableEq, Repr

/-- Compile a LIKE pattern string: `%`/`_` are wildcards and backslash
escapes the next character (PostgreSQL's default escape). -/
def likeCompile : List Char → List LTok
  | '\\' :: c :: r => .ch c :: likeCompile r
  | '%' :: r => .pct :: likeCompile r
  | '_' :: r => .one :: likeCompile r
  | c :: r => .ch c :: likeCompile r
  | [] => []

/-- Does `f` hold of some suffix of the string (the string itself
included)?  This is how `%` consumes zero or more characters. -/
def anySuffix (f : List Char → Bool) : List Char → Bool
  | [] => f []
  | x :: t => f (x :: t) || anySuffix f t

/-- SQL LIKE matching (the pattern must cover the whole string). -/
def likeMatch : List LTok → List Char → Bool
  | [], s => s.isEmpty
  | .pct :: p, s => anySuffix (likeMatch p) s
  | .one :: p, s =>
      match s with
      | [] => false
      | _ :: t => likeMatch p t
  | .ch c :: p, s =>
      match s with
      | [] => false
      | x :: t => decide (x = c) && likeMatch p t

/-- ASCII lowercasing, as applied by SQL `lower()` on both sides of the
fuzzy-match comparison. -/
def lowerStr (s : String) : String := ⟨s.toList.map Char.toLower⟩

/-- The `_exact_match` LIKE pattern `f"%{volume} % {page}%"`. -/
def exactPattern (volume page : Nat) : List LTok :=
  likeCompile ("%" ++ toString volume ++ " % " ++ toString page ++ "%").toList

/-- `_exact_match`: first opinion (result-set order modelled as list
order; the query has no ORDER BY) whose `raw_text` matches the
volume/page pattern.  The reporter does not appear in the pattern. -/
def exact_match (db : List OpinionR) (parsed : Cite.ParsedCitation) : Option Nat :=
  (db.find? (fun op => likeMatch (exactPattern parsed.volume parsed.page) op.raw_text.toList)).map
    (fun op => op.id)

/-- The fuzzy-phase candidate filter: case-insensitive LIKE on case name,
narrowed to the ±1-year window when the citation year was parsed. -/
def fuzzyCandidates (db : List OpinionR) (case_name : String)
    (auth : CitedAuthority) : List OpinionR :=
  let pat := likeCompile (lowerStr ("%" ++ case_name ++ "%")).toList
  let base := db.filter (fun op => likeMatch pat (lowerStr op.case_name).toList)
  match (Cite.parse_citation auth.citation_string).bind (fun p => p.year) with
  | some y =>
      base.filter (fun op =>
        dateLe ⟨(y : Int) - 1, 1, 1⟩ op.date_filed &&
        dateLe op.date_filed ⟨(y : Int) + 1, 12, 31⟩)
  | none => base

/-- `ORDER BY date_filed DESC LIMIT 1`: an opinion with the maximal
`date_filed` among the candidates (first such in list order; SQL leaves
the choice among equal dates unspecified). -/
def pickLatest (cands : List OpinionR) : Option OpinionR :=
  cands.foldl (fun acc op =>
    match acc with
    | none => some op
    | some best => if dateLt best.date_filed op.date_filed then some op else acc) none

/-- The fold step of `pickLatest`. -/
def pickStep (acc : Option OpinionR) (op : OpinionR) : Option OpinionR :=
  match acc with
  | none => some op
  | some best => if dateLt best.date_filed op.date_filed then some op else acc

/-- `_fuzzy_match`. -/
def fuzzy_match (db : List OpinionR) (case_name : String)
    (auth : CitedAuthority) : Option Nat :=
  (pickLatest (fuzzyCandidates db case_name auth)).map (fun op => op.id)

/-- `_resolve_single`: exact phase (when the citation parses), then fuzzy
phase (when the exact phase produced nothing and a case name is present),
then `None`. -/
def resolve_single (db : List OpinionR) (auth : CitedAuthority) : Option Nat :=
  let afterExact :=
    match Cite.parse_citation auth.citation_string with
    | some parsed => exact_match db parsed
    | none => none
  match afterExact with
  | some i => some i
  | none =>
      match auth.case_name with
      | some name => if name.isEmpty then none else fuzzy_match db name auth
      | none => none

/-- `resolve_citations`: exactly one edge per authority, never raising. -/
def resolve_citations (db : List OpinionR) (authorities : List CitedAuthority)
    (citing_opinion_id : Nat) : List CitationEdge :=
  authorities.map (fun auth =>
    { citing_opinion_id := citing_opinion_id
      cited_opinion_id := resolve_single db auth
      citation_string := auth.citation_string
      cited_case_name := auth.case_name
      citation_context := auth.citation_context
      citation_type := auth.citation_type
      paragraph_context := auth.paragraph_context })

/-- `ResolutionStats`. -/
structure ResolutionStats where
  total : Nat
  resolved : Nat
  unresolved : Nat
  unresolved_citations : List String
deriving DecidableEq, Repr

/-- The per-edge stats update inside `bulk_resolve`'s inner loop. -/
def statsStep (st : ResolutionStats) (e : CitationEdge) : ResolutionStats :=
  match e.cited_opinion_id with
  | some _ =>
      { st with total := st.total + 1, resolved := st.resolved + 1 }
  | none =>
      { st with
        total := st.total + 1
        unresolved := st.unresolved + 1
        unresolved_citations := st.unresolved_citations ++ [e.citation_string] }

/-- `bulk_resolve`: resolve every extraction's authorities, accumulate
stats, and persist one `CitationRow` per edge (the persisted rows carry
the same fields as the edges and are returned alongside the stats). -/
def bulk_resolve (db : List OpinionR) (extractions : List (Nat × List CitedAuthority)) :
    ResolutionStats × List CitationEdge :=
  extractions.foldl (fun (acc : ResolutionStats × List CitationEdge) ext =>
    let edges := resolve_citations db ext.2 ext.1
    (edges.foldl statsStep acc.1, acc.2 ++ edges))
    (⟨0, 0, 0, []⟩, [])

/-- Invariant linking the running `ResolutionStats` to the persisted rows. -/
def StatsInv (st : ResolutionStats) (rows : List CitationEdge) : Prop :=
  st.total = rows.length
  ∧ st.resolved = (rows.filter (fun e => e.cited_opinion_id ≠ none)).length
  ∧ st.unresolved = (rows.filter (fun e => e.cited_opinion_id = none)).length
  ∧ st.unresolved_citations =
      (rows.filter (fun e => e.cited_opinion_id = none)).map (fun e => e.citation_string)

end Resolve

namespace Authority

/-- An `opinions` row restricted to what `_build_single_node` reads.
`date_filed` is a day number (the column is non-nullable, so the node's
ISO date string always parses back). -/
structure OpinionA where
  id : Nat
  court_id : String
  court_level : String
  case_name : String
  date_filed : Int
deriving DecidableEq, Repr

/-- A citation row as counted by `_build_single_node`. -/
structure CiteRowA where
  citing_opinion_id : Nat
  cited_opinion_id : Option Nat
deriving DecidableEq, Repr

/-- `AuthorityNode` (response value object).  `date_filed` is the ISO
string of the opinion's date when the opinion exists, modelled as
`some` day number, and the empty string (`none`) for the placeholder
node of an unknown opinion. -/
structure AuthorityNode where
  opinion_id : Nat
  case_name : String
  citation_string : String
  court : String
  date_filed : Option Int
  citation_count : Nat
deriving DecidableEq, Repr

/-- `_COURT_LEVEL_RANK` with the `.get(..., 25)` default. -/
def COURT_LEVEL_RANK (key : String) : ℚ :=
  if key = "supreme" then 100
  else if key = "appellate" then 80
  else if key = "state_supreme" then 70
  else if key = "state_appellate" then 50
  else if key = "district" then 40
  else if key = "state_trial" then 30
  else if key = "bankruptcy" then 20
  else if key = "specialized" then 25
  else 25

/-- `_build_single_node`: the node for an opinion id, with `court` set to
the opinion's `court_id` and `citation_count` the number of citation rows
targeting it. -/
def build_single_node (ops : List OpinionA) (cits : List CiteRowA) (opinion_id : Nat) :
    AuthorityNode :=
  match ops.find? (fun op => op.id = opinion_id) with
  | none =>
      { opinion_id := opinion_id, case_name := "Unknown", citation_string := ""
        court := "unknown", date_filed := none, citation_count := 0 }
  | some op =>
      { opinion_id := op.id
        case_name := op.case_name
        citation_string := op.case_name
        court := op.court_id
        date_filed := some op.date_filed
        citation_count := (cits.filter (fun c => c.cited_opinion_id = some opinion_id)).length }

/-- `_authority_score`, translated line by line: the court component looks
up `node.court` (which `_build_single_node` set to the opinion's
`court_id`) in `_COURT_LEVEL_RANK`. -/
def authority_score (today : Int) (node : AuthorityNode) : ℚ :=
  let cite_score := min ((node.citation_count : ℚ) / 10) 1 * (5/10)
  let court_rank := COURT_LEVEL_RANK node.court
  let court_score := court_rank / 100 * (3/10)
  let recency_score : ℚ :=
    match node.date_filed with
    | some d => max 0 (1 - (((today - d : Int) : ℚ) / (36525/100)) / 30) * (2/10)
    | none => 0
  cite_score + court_score + recency_score

/-- The score §4.4 specifies, stated from the spec's words: the court
component uses the opinion's `court_level` tier in the per-tier table
(`supreme=100 … specialized=25`, unknown tiers default to 25). -/
def specAuthorityScore (today : Int) (citation_count : Nat) (court_level : String)
    (date_filed : Int) : ℚ :=
  (5/10) * min ((citation_count : ℚ) / 10) 1 +
    (3/10) * (COURT_LEVEL_RANK court_level / 100) +
    (2/10) * max 0 (1 - (((today - date_filed : Int) : ℚ) / (36525/100)) / 30)

/-- `nodes.sort(key=..., reverse=True)`: stable descending sort by the
authority score. -/
def sortNodes (today : Int) (nodes : List AuthorityNode) : List AuthorityNode :=
  nodes.mergeSort (fun x y => decide (authority_score today y ≤ authority_score today x))

end Authority

/-! ## Claim theorems -/

namespace Cite

theorem takeWhile_len_le {α : Type} (p : α → Bool) (l : List α) :
    (l.takeWhile p).length ≤ l.length :=
  (List.takeWhile_sublist p).length_le

theorem matchRep_rest_le {toks : List RTok} {s m r : List Char}
    (h : matchRep toks s = some (m, r)) : r.length ≤ s.length := by
  induction toks generalizing s m r with
  | nil =>
    simp only [matchRep, Option.some.injEq, Prod.mk.injEq] at h
    obtain ⟨-, h2⟩ := h
    simp [h2]
  | cons t ts ih =>
    cases t with
    | lit c =>
      cases s with
      | nil => simp [matchRep] at h
      | cons x xs =>
        simp only [matchRep] at h
        split at h
        · rw [Option.map_eq_some'] at h
          obtain ⟨⟨m1, r1⟩, hmr, heq⟩ := h
          simp only [Prod.mk.injEq] at heq
          obtain ⟨-, hr⟩ := heq
          subst hr
          have := ih hmr
          simp only [List.length_cons]
          omega
        · simp at h
    | ws =>
      simp only [matchRep] at h
      rw [Option.map_eq_some'] at h
      obtain ⟨⟨m1, r1⟩, hmr, heq⟩ := h
      simp only [Prod.mk.injEq] at heq
      obtain ⟨-, hr⟩ := heq
      subst hr
      have := ih hmr
      have hd : (s.drop (s.takeWhile isPySpace).length).length ≤ s.length := by
        simp [List.length_drop]
      omega

theorem matchPinpoint_rest_le (s : List Char) :
    (matchPinpoint s).2.2.length ≤ s.length := by
  simp only [matchPinpoint]
  split
  · simp
  · split
    · simp
    · simp only [List.length_drop]
      omega

theorem matchYear_rest_le (s : List Char) :
    (matchYear s).2.2.length ≤ s.length := by
  simp only [matchYear]
  split
  · rename_i d1 d2 d3 d4 rest heq
    split
    · show rest.length ≤ s.length
      have h1 : (s.drop (s.takeWhile isPySpace).length).length ≤ s.length := by
        simp [List.length_drop]
      rw [heq] at h1
      simp only [List.length_cons] at h1
      omega
    · simp
  · simp

theorem matchTail_rest_le {vol : Nat} {volRaw sp1 repRaw s : List Char}
    {p : ParsedCitation} {r : List Char}
    (h : matchTail vol volRaw sp1 repRaw s = some (p, r)) : r.length ≤ s.length := by
  simp only [matchTail] at h
  split at h
  · simp at h
  · split at h
    · simp at h
    · simp only [Option.some.injEq, Prod.mk.injEq] at h
      obtain ⟨-, hr⟩ := h
      subst hr
      exact le_trans (matchYear_rest_le _)
        (le_trans (matchPinpoint_rest_le _) (by simp [List.length_drop]))

theorem tryReps_rest_le {vol : Nat} {volRaw sp1 : List Char}
    {alts : List (List RTok)} {s : List Char} {p : ParsedCitation} {r : List Char}
    (h : tryReps vol volRaw sp1 alts s = some (p, r)) : r.length ≤ s.length := by
  induction alts with
  | nil => simp [tryReps] at h
  | cons toks rest ih =>
    simp only [tryReps] at h
    split at h
    · rename_i m s' hm
      split at h
      · rename_i res ht
        injection h with h2
        subst h2
        exact le_trans (matchTail_rest_le ht) (matchRep_rest_le hm)
      · exact ih h
    · exact ih h

theorem matchAt_rest_lt {s : List Char} {p : ParsedCitation} {r : List Char}
    (h : matchAt s = some (p, r)) : r.length < s.length := by
  simp only [matchAt] at h
  split at h
  · simp at h
  · rename_i hvr
    split at h
    · simp at h
    · rename_i hsp
      have h1 := tryReps_rest_le h
      rw [Bool.or_eq_true, not_or] at hvr
      obtain ⟨hvr1, -⟩ := hvr
      have hvrlen : 1 ≤ (s.takeWhile isPyDigit).length := by
        cases hv : s.takeWhile isPyDigit with
        | nil => rw [hv] at hvr1; simp at hvr1
        | cons a b => simp [hv]
      have hvle : (s.takeWhile isPyDigit).length ≤ s.length :=
        takeWhile_len_le _ _
      simp only [List.length_drop] at h1 ⊢
      omega

theorem searchAt_rest_lt {s : List Char} {p : ParsedCitation} {r : List Char}
    (h : searchAt s = some (p, r)) : r.length < s.length := by
  induction s with
  | nil =>
    have : matchAt [] = none := rfl
    simp [searchAt, this] at h
  | cons c t ih =>
    simp only [searchAt] at h
    cases hm : matchAt (c :: t) with
    | none => rw [hm] at h; have := ih h; simp only [List.length_cons]; omega
    | some q =>
      rw [hm] at h
      cases h
      exact matchAt_rest_lt hm

theorem finditerFuel_congr : ∀ {f1 f2 : Nat} {s : List Char},
    s.length < f1 → s.length < f2 → finditerFuel f1 s = finditerFuel f2 s := by
  intro f1
  induction f1 with
  | zero => intro f2 s h1; omega
  | succ n ih =>
    intro f2 s h1 h2
    cases f2 with
    | zero => omega
    | succ m =>
      simp only [finditerFuel]
      cases hs : searchAt s with
      | none => rfl
      | some pr =>
        obtain ⟨p, r⟩ := pr
        have hr := searchAt_rest_lt hs
        exact congrArg (fun l => p :: l)
          (ih (show r.length < n by omega) (show r.length < m by omega))

theorem finditer_eq (s : List Char) :
    finditer s =
      match searchAt s with
      | none => []
      | some (p, r) => p :: finditer r := by
  show finditerFuel (s.length + 1) s = _
  simp only [finditerFuel]
  cases hs : searchAt s with
  | none => rfl
  | some pr =>
    obtain ⟨p, r⟩ := pr
    have hr := searchAt_rest_lt hs
    exact congrArg (fun l => p :: l)
      (finditerFuel_congr (show r.length < s.length by omega)
        (show r.length < r.length + 1 by omega))

end Cite

namespace Store

theorem mem_frontier_iff {db : Db} {direction : String} {root m k} :
    m ∈ frontier db direction root k ↔ Walk db direction root m k := by
  induction k generalizing m with
  | zero =>
    simp only [frontier, List.mem_singleton]
    constructor
    · rintro rfl; exact .zero
    · rintro ⟨⟩; rfl
  | succ k ih =>
    simp only [frontier, List.mem_flatMap]
    constructor
    · rintro ⟨n, hn, hm⟩
      exact .succ (ih.mp hn) hm
    · rintro (⟨⟩ | ⟨hw, hm⟩)
      exact ⟨_, ih.mpr hw, hm⟩

theorem find?_append_of_some {α : Type} {l1 l2 : List α} {p : α → Bool} {a : α}
    (h : l1.find? p = some a) : (l1 ++ l2).find? p = some a := by
  induction l1 with
  | nil => simp [List.find?] at h
  | cons x t ih =>
    simp only [List.find?, List.cons_append] at h ⊢
    cases hp : p x with
    | true => rw [hp] at h; simpa [hp] using h
    | false => rw [hp] at h; simpa [hp] using ih h

theorem find?_first {α : Type} {l : List α} {p : α → Bool} {a : α}
    (h : l.find? p = some a) :
    ∃ l1 l2, l = l1 ++ a :: l2 ∧ (∀ x ∈ l1, ¬ p x) ∧ p a := by
  induction l with
  | nil => simp [List.find?] at h
  | cons x t ih =>
    simp only [List.find?] at h
    cases hp : p x with
    | true =>
      rw [hp] at h
      simp only [Option.some.injEq] at h
      subst h
      exact ⟨[], t, rfl, by simp, hp⟩
    | false =>
      rw [hp] at h
      simp only at h
      obtain ⟨l1, l2, hl, hfail, hpa⟩ := ih h
      exact ⟨x :: l1, l2, by simp [hl], by
        intro y hy
        rcases List.mem_cons.mp hy with rfl | hy'
        · simp [hp]
        · exact hfail y hy', hpa⟩

theorem range_find?_facts {n k : Nat} {p : Nat → Bool}
    (h : (List.range n).find? p = some k) :
    k < n ∧ p k ∧ ∀ j < k, ¬ p j := by
  obtain ⟨l1, l2, hl, hfail, hpa⟩ := find?_first h
  have hk : k < n := by
    have : k ∈ List.range n := by rw [hl]; simp
    simpa using this
  refine ⟨hk, hpa, fun j hj => ?_⟩
  have hpw : List.Pairwise (· < ·) (l1 ++ k :: l2) := by
    rw [← hl]; exact List.pairwise_lt_range n
  have hsplit := (List.pairwise_append.mp hpw).2.2
  have hkl2 := (List.pairwise_cons.mp (List.pairwise_append.mp hpw).2.1).1
  have hj' : j ∈ l1 := by
    have hjn : j < n := lt_trans hj hk
    have hjmem : j ∈ l1 ++ k :: l2 := by rw [← hl]; simpa using hjn
    rcases List.mem_append.mp hjmem with hja | hjb
    · exact hja
    · rcases List.mem_cons.mp hjb with rfl | hjc
      · omega
      · exact absurd (hkl2 j hjc) (by omega)
  exact hfail j hj'

theorem minDepth_le_succ {db : Db} {direction : String} {root d m k}
    (h : minDepth db direction root d m = some k) :
    minDepth db direction root (d + 1) m = some k := by
  unfold minDepth at h ⊢
  rw [List.range_succ (n := d + 1)]
  exact find?_append_of_some h

theorem minDepth_root {db : Db} {direction : String} {root d} :
    minDepth db direction root d root = some 0 := by
  unfold minDepth
  rw [List.range_succ_eq_map]
  simp [List.find?, frontier]

end Store

namespace Store

/-- C8: for every call to `get_citation_subgraph` with a direction value
outside `{"outgoing", "incoming", "both"}`, the operation raises a
`ValueError` immediately; it does not default to any direction and
returns no result. -/
theorem c8_unrecognized_direction_errors (db : Db) (root max_depth : Nat)
    (direction : String) (h1 : direction ≠ "outgoing")
    (h2 : direction ≠ "incoming") (h3 : direction ≠ "both") :
    get_citation_subgraph db root max_depth direction =
      .error (directionError direction) := by
  unfold get_citation_subgraph
  rw [if_neg]
  rintro (h | h | h) <;> contradiction

/-- Witness for C8 at the concrete direction `"sideways"`. -/
theorem c8_unrecognized_direction_errors_witness :
    get_citation_subgraph ⟨[], []⟩ 1 2 "sideways" = .error (directionError "sideways") :=
  c8_unrecognized_direction_errors ⟨[], []⟩ 1 2 "sideways"
    (by decide) (by decide) (by decide)

end Store

namespace Authority

/-- C7: at the failing input (an opinion with `court_id = "ca9"`,
`court_level = "appellate"`, no incoming citations, filed ≈30.1 years
before today), the code's score — which looks up the node's `court`
field, i.e. the court id, in `_COURT_LEVEL_RANK` — is `0.075`, while the
claimed per-tier score using the opinion's `court_level` is `0.24`. -/
theorem c7_authority_score_divergence :
    authority_score 11000 (build_single_node [⟨1, "ca9", "appellate", "X v. Y", 0⟩] [] 1)
        = 3/40
    ∧ specAuthorityScore 11000 0 "appellate" 0 = 6/25
    ∧ (3/40 : ℚ) ≠ 6/25 := by
  refine ⟨?_, ?_, by norm_num⟩
  · simp [authority_score, build_single_node, COURT_LEVEL_RANK, List.find?, List.filter]
    norm_num [min_def, max_def]
  · simp [specAuthorityScore, COURT_LEVEL_RANK]
    norm_num [min_def, max_def]

end Authority

namespace Resolve

theorem statsInv_step {st : ResolutionStats} {rows : List CitationEdge}
    (h : StatsInv st rows) (e : CitationEdge) :
    StatsInv (statsStep st e) (rows ++ [e]) := by
  obtain ⟨h1, h2, h3, h4⟩ := h
  unfold statsStep StatsInv
  cases he : e.cited_opinion_id with
  | none => simp [List.filter_append, he, h1, h2, h3, h4]
  | some i => simp [List.filter_append, he, h1, h2, h3, h4]

theorem statsInv_foldl {edges : List CitationEdge} :
    ∀ {st : ResolutionStats} {rows : List CitationEdge}, StatsInv st rows →
    StatsInv (edges.foldl statsStep st) (rows ++ edges) := by
  induction edges with
  | nil => intro st rows h; simpa using h
  | cons e es ih =>
    intro st rows h
    have := ih (statsInv_step h e)
    simpa using this

theorem statsInv_bulk (db : List OpinionR)
    (extractions : List (Nat × List CitedAuthority)) :
    StatsInv (bulk_resolve db extractions).1 (bulk_resolve db extractions).2 := by
  unfold bulk_resolve
  have : ∀ (exts : List (Nat × List CitedAuthority))
      (acc : ResolutionStats × List CitationEdge), StatsInv acc.1 acc.2 →
      StatsInv (exts.foldl (fun acc ext =>
        let edges := resolve_citations db ext.2 ext.1
        (edges.foldl statsStep acc.1, acc.2 ++ edges)) acc).1
        (exts.foldl (fun acc ext =>
          let edges := resolve_citations db ext.2 ext.1
          (edges.foldl statsStep acc.1, acc.2 ++ edges)) acc).2 := by
    intro exts
    induction exts with
    | nil => intro acc h; exact h
    | cons x xs ih =>
      intro acc h
      exact ih _ (statsInv_foldl h)
  exact this extractions (⟨0, 0, 0, []⟩, []) (by simp [StatsInv])

theorem bulk_rows_length (db : List OpinionR)
    (extractions : List (Nat × List CitedAuthority)) :
    (bulk_resolve db extractions).2.length =
      (extractions.map (fun e => e.2.length)).sum := by
  unfold bulk_resolve
  have : ∀ (exts : List (Nat × List CitedAuthority))
      (acc : ResolutionStats × List CitationEdge),
      (exts.foldl (fun acc ext =>
        let edges := resolve_citations db ext.2 ext.1
        (edges.foldl statsStep acc.1, acc.2 ++ edges)) acc).2.length =
      acc.2.length + (exts.map (fun e => e.2.length)).sum := by
    intro exts
    induction exts with
    | nil => intro acc; simp
    | cons x xs ih =>
      intro acc
      rw [List.foldl_cons, ih]
      simp [resolve_citations]
      omega
  simpa using this extractions (⟨0, 0, 0, []⟩, [])

/-- C10: for every input to `bulk_resolve`, the returned stats satisfy
`total = resolved + unresolved`; `total` equals the number of
`CitedAuthority` items across the batch; and `unresolved_citations` has
one entry — the citation string — per persisted edge whose
`cited_opinion_id` is null, so its length equals `unresolved`. -/
theorem c10_bulk_resolve_stats (db : List OpinionR)
    (extractions : List (Nat × List CitedAuthority)) :
    (bulk_resolve db extractions).1.total =
        (bulk_resolve db extractions).1.resolved + (bulk_resolve db extractions).1.unresolved
    ∧ (bulk_resolve db extractions).1.total = (extractions.map (fun e => e.2.length)).sum
    ∧ (bulk_resolve db extractions).1.unresolved_citations.length =
        (bulk_resolve db extractions).1.unresolved
    ∧ (bulk_resolve db extractions).1.unresolved_citations =
        ((bulk_resolve db extractions).2.filter (fun e => e.cited_opinion_id = none)).map
          (fun e => e.citation_string) := by
  obtain ⟨h1, h2, h3, h4⟩ := statsInv_bulk db extractions
  refine ⟨?_, ?_, ?_, h4⟩
  · rw [h1, h2, h3]
    have hlen := List.length_eq_length_filter_add
      (l := (bulk_resolve db extractions).2)
      (fun e => decide (e.cited_opinion_id ≠ none))
    rw [hlen]
    congr 1
    apply congrArg
    apply List.filter_congr
    intro e _
    simp
  · rw [h1, bulk_rows_length]
  · rw [h4, h3, List.length_map]

end Resolve

namespace Resolve

theorem dateLt_iff {a b : DateD} :
    dateLt a b = true ↔
      (a.year < b.year ∨ (a.year = b.year ∧
        (a.month < b.month ∨ (a.month = b.month ∧ a.day < b.day)))) := by
  simp [dateLt]

theorem dateLt_false_iff {a b : DateD} :
    dateLt a b = false ↔
      ¬ (a.year < b.year ∨ (a.year = b.year ∧
        (a.month < b.month ∨ (a.month = b.month ∧ a.day < b.day)))) := by
  rw [← Bool.not_eq_true, dateLt_iff]

theorem dateLt_not_of_ge {a b c : DateD}
    (h1 : dateLt a b = false) (h2 : dateLt b c = false) : dateLt a c = false := by
  rw [dateLt_false_iff] at h1 h2 ⊢
  rcases a with ⟨ay, am, ad⟩
  rcases b with ⟨yy, ym, yd⟩
  rcases c with ⟨cy, cm, cd⟩
  simp only at h1 h2 ⊢
  omega

theorem dateLt_trans {a b c : DateD}
    (h1 : dateLt a b = true) (h2 : dateLt b c = true) : dateLt a c = true := by
  rw [dateLt_iff] at h1 h2 ⊢
  rcases a with ⟨ay, am, ad⟩
  rcases b with ⟨yy, ym, yd⟩
  rcases c with ⟨cy, cm, cd⟩
  simp only at h1 h2 ⊢
  omega

theorem dateLt_irrefl (a : DateD) : dateLt a a = false := by
  rw [dateLt_false_iff]
  omega

theorem pickStep_cases (acc : Option OpinionR) (e s : OpinionR)
    (h : pickStep acc e = some s) :
    (s = e ∨ acc = some s) ∧ dateLt s.date_filed e.date_filed = false := by
  cases acc with
  | none =>
    simp only [pickStep, Option.some.injEq] at h
    subst h
    exact ⟨Or.inl rfl, dateLt_irrefl _⟩
  | some best =>
    simp only [pickStep] at h
    split at h
    · simp only [Option.some.injEq] at h
      subst h
      exact ⟨Or.inl rfl, dateLt_irrefl _⟩
    · rename_i hlt
      simp only [Option.some.injEq] at h
      subst h
      exact ⟨Or.inr rfl, by simpa using hlt⟩

theorem pickStep_isSome (acc : Option OpinionR) (e : OpinionR) :
    ∃ s, pickStep acc e = some s := by
  cases acc with
  | none => exact ⟨e, rfl⟩
  | some best =>
    simp only [pickStep]
    split
    · exact ⟨e, rfl⟩
    · exact ⟨best, rfl⟩

theorem pickLatest_spec : ∀ {cands : List OpinionR} {op : OpinionR},
    pickLatest cands = some op →
    op ∈ cands ∧ ∀ x ∈ cands, dateLt op.date_filed x.date_filed = false := by
  have main : ∀ (l : List OpinionR) (acc : Option OpinionR) (op : OpinionR),
      l.foldl pickStep acc = some op →
      ((acc = some op ∨ op ∈ l)
        ∧ (∀ x ∈ l, dateLt op.date_filed x.date_filed = false)
        ∧ (∀ b, acc = some b → dateLt op.date_filed b.date_filed = false)) := by
    intro l
    induction l with
    | nil =>
      intro acc op h
      simp only [List.foldl_nil] at h
      refine ⟨Or.inl h, by simp, fun b hb => ?_⟩
      rw [h] at hb
      cases hb
      exact dateLt_irrefl _
    | cons e es ih =>
      intro acc op h
      simp only [List.foldl_cons] at h
      obtain ⟨hmem, hmax, hacc⟩ := ih (pickStep acc e) op h
      obtain ⟨s, hstep⟩ := pickStep_isSome acc e
      have hop_s : dateLt op.date_filed s.date_filed = false := hacc s hstep
      obtain ⟨hs_or, hs_e⟩ := pickStep_cases acc e s hstep
      have hope : dateLt op.date_filed e.date_filed = false :=
        dateLt_not_of_ge hop_s hs_e
      refine ⟨?_, ?_, ?_⟩
      · rcases hmem with hacc' | hin
        · rw [hstep] at hacc'
          cases hacc'
          rcases hs_or with rfl | hsa
          · right; exact List.mem_cons_self _ _
          · left; exact hsa
        · right; exact List.mem_cons_of_mem _ hin
      · intro x hx
        rcases List.mem_cons.mp hx with rfl | hx'
        · exact hope
        · exact hmax x hx'
      · intro b hb
        subst hb
        rcases hs_or with rfl | hsa
        · -- the step replaced `b` by `e`, so `b` is strictly older than `e ≤ op`
          simp only [pickStep] at hstep
          split at hstep
          · rename_i hlt
            cases hstep
            by_contra hcon
            rw [Bool.not_eq_false] at hcon
            have := dateLt_trans hcon hlt
            rw [hope] at this
            cases this
          · rename_i hlt
            cases hstep
            exact hop_s
        · cases hsa
          exact hop_s
  intro cands op h
  obtain ⟨hmem, hmax, -⟩ := main cands none op h
  rcases hmem with hnone | hin
  · simp at hnone
  · exact ⟨hin, hmax⟩

end Resolve

namespace Resolve

/-- C4: resolution is two ordered phases.  (1) When the citation parses
and the exact phase finds an opinion, that is the result.  (2) The exact
phase depends only on the parsed volume and page — the reporter is not an
independent match filter.  (3) When the exact phase yields nothing, the
result is the fuzzy phase when a (non-empty) case name is present and
null otherwise.  (4) A fuzzy result is an opinion of the store whose
lowercased case name contains the lowercased search name, lying in the
±1-year window around the parsed citation year whenever a year was
extracted, and filed no earlier than every other candidate (tie-break:
recency).  (5) `resolve_citations` always yields exactly one edge per
authority — carrying `resolve_single`'s result, null when both phases
fail — and never raises. -/
theorem c4_resolution_phases (db : List OpinionR) (auth : CitedAuthority) :
    (∀ p i, Cite.parse_citation auth.citation_string = some p →
      exact_match db p = some i → resolve_single db auth = some i)
    ∧ (∀ p q : Cite.ParsedCitation, p.volume = q.volume → p.page = q.page →
      exact_match db p = exact_match db q)
    ∧ ((∀ p, Cite.parse_citation auth.citation_string = some p →
        exact_match db p = none) →
      resolve_single db auth =
        (match auth.case_name with
         | some name => if name.isEmpty then none else fuzzy_match db name auth
         | none => none))
    ∧ (∀ name i, fuzzy_match db name auth = some i →
      ∃ op ∈ db, op.id = i ∧
        likeMatch (likeCompile (lowerStr ("%" ++ name ++ "%")).toList)
          (lowerStr op.case_name).toList = true
        ∧ (∀ p y, Cite.parse_citation auth.citation_string = some p → p.year = some y →
            dateLe ⟨(y : Int) - 1, 1, 1⟩ op.date_filed = true ∧
            dateLe op.date_filed ⟨(y : Int) + 1, 12, 31⟩ = true)
        ∧ (∀ op2 ∈ fuzzyCandidates db name auth,
            dateLt op.date_filed op2.date_filed = false))
    ∧ (∀ (auths : List CitedAuthority) (cid : Nat),
        (resolve_citations db auths cid).length = auths.length)
    ∧ (∀ cid e, e ∈ resolve_citations db [auth] cid →
        e.cited_opinion_id = resolve_single db auth ∧
        e.citation_string = auth.citation_string) := by
  refine ⟨?_, ?_, ?_, ?_, ?_, ?_⟩
  · intro p i hp hex
    simp only [resolve_single, hp, hex]
  · intro p q hv hpg
    unfold exact_match exactPattern
    rw [hv, hpg]
  · intro hnone
    unfold resolve_single
    cases hp : Cite.parse_citation auth.citation_string with
    | none => rfl
    | some p => simp only [hnone p hp]
  · intro name i hf
    unfold fuzzy_match at hf
    rw [Option.map_eq_some'] at hf
    obtain ⟨op, hpick, hid⟩ := hf
    obtain ⟨hmem, hmax⟩ := pickLatest_spec hpick
    have hcand := hmem
    unfold fuzzyCandidates at hmem
    refine ⟨op, ?_, hid, ?_, ?_, hmax⟩
    · revert hmem
      cases hyr : (Cite.parse_citation auth.citation_string).bind (fun p => p.year) with
      | some y =>
        simp only [hyr]
        intro hmem
        exact List.mem_of_mem_filter (List.mem_of_mem_filter hmem)
      | none =>
        simp only [hyr]
        intro hmem
        exact List.mem_of_mem_filter hmem
    · revert hmem
      cases hyr : (Cite.parse_citation auth.citation_string).bind (fun p => p.year) with
      | some y =>
        simp only [hyr]
        intro hmem
        have := List.mem_filter.mp (List.mem_of_mem_filter hmem)
        exact this.2
      | none =>
        simp only [hyr]
        intro hmem
        exact (List.mem_filter.mp hmem).2
    · intro p y hp hy
      revert hmem
      have hyr : (Cite.parse_citation auth.citation_string).bind (fun p => p.year) = some y := by
        rw [hp]
        exact hy
      simp only [hyr]
      intro hmem
      have := (List.mem_filter.mp hmem).2
      rw [Bool.and_eq_true] at this
      exact ⟨this.1, this.2⟩
  · intro auths cid
    unfold resolve_citations
    exact List.length_map _ _
  · intro cid e he
    unfold resolve_citations at he
    simp only [List.map_cons, List.map_nil, List.mem_singleton] at he
    subst he
    exact ⟨rfl, rfl⟩

/-- Witness for C4: a concrete store and authority on which the exact
phase resolves ("District of Columbia v. Heller", whose source text
contains "554 ... 570"), instantiating the two-phase theorem. -/
theorem c4_resolution_phases_witness :
    resolve_single
      [⟨7, "District of Columbia v. Heller", ⟨2008, 6, 26⟩,
        "District of Columbia v. Heller, 554 U.S. 570 (2008) text"⟩]
      ⟨"554 U.S. 570 (2008)", some "Heller", "ctx", "followed", "para"⟩ = some 7 :=
  (c4_resolution_phases _ _).1
    ⟨554, "U.S.", 570, none, some 2008, "554 U.S. 570 (2008)"⟩ 7 rfl rfl

end Resolve

namespace Store

theorem map_filterMap_sublist {α β γ : Type} (f : α → Option β) (g : β → γ) (h : α → γ)
    (H : ∀ a b, f a = some b → g b = h a) :
    ∀ l : List α, ((l.filterMap f).map g).Sublist (l.map h) := by
  intro l
  induction l with
  | nil => simp
  | cons a t ih =>
    cases hf : f a with
    | none =>
      simp only [List.filterMap_cons, hf, List.map_cons]
      exact ih.cons _
    | some b =>
      simp only [List.filterMap_cons, hf, List.map_cons, H a b hf]
      exact ih.cons₂ _

theorem subgraph_ok_iff {db : Db} {root max_depth : Nat} {direction : String}
    {rows : List SubRow}
    (h : get_citation_subgraph db root max_depth direction = .ok rows) :
    rows = db.opinions.filterMap (fun op =>
      (minDepth db direction root max_depth op.id).map (fun d =>
        { opinion_id := op.id, depth := d, case_name := op.case_name,
          court_id := op.court_id })) := by
  unfold get_citation_subgraph at h
  split at h
  · cases h; rfl
  · cases h

/-- C2: for every graph, root and direction, with `rows` the depth-`d`
result and `rows'` the depth-`d + 1` result: every depth-`d` row's
opinion also appears at depth `d + 1` (monotonicity); every recorded
depth is at most `d`; each opinion id appears exactly once (given the
primary-key uniqueness of opinion ids); each row's depth is the minimum
hop-distance from the root (a walk of that length exists and no shorter
one does); and the root itself appears at depth 0. -/
theorem c2_subgraph_depth_properties (db : Db) (root d : Nat) (direction : String)
    (rows rows' : List SubRow)
    (h1 : get_citation_subgraph db root d direction = .ok rows)
    (h2 : get_citation_subgraph db root (d + 1) direction = .ok rows')
    (hnd : (db.opinions.map (fun op => op.id)).Nodup)
    (hroot : root ∈ db.opinions.map (fun op => op.id)) :
    (∀ r ∈ rows, ∃ r' ∈ rows', r'.opinion_id = r.opinion_id)
    ∧ (∀ r ∈ rows, r.depth ≤ d)
    ∧ (rows.map (fun r => r.opinion_id)).Nodup
    ∧ (∀ r ∈ rows, Walk db direction root r.opinion_id r.depth
        ∧ ∀ k, Walk db direction root r.opinion_id k → r.depth ≤ k)
    ∧ (∃ r ∈ rows, r.opinion_id = root ∧ r.depth = 0) := by
  have hrows := subgraph_ok_iff h1
  have hrows' := subgraph_ok_iff h2
  subst hrows
  subst hrows'
  refine ⟨?_, ?_, ?_, ?_, ?_⟩
  · intro r hr
    obtain ⟨op, hop, hmk⟩ := List.mem_filterMap.mp hr
    rw [Option.map_eq_some'] at hmk
    obtain ⟨dep, hdep, hmk⟩ := hmk
    refine ⟨⟨op.id, dep, op.case_name, op.court_id⟩, ?_, by rw [← hmk]⟩
    apply List.mem_filterMap.mpr
    exact ⟨op, hop, by rw [minDepth_le_succ hdep]; rfl⟩
  · intro r hr
    obtain ⟨op, hop, hmk⟩ := List.mem_filterMap.mp hr
    rw [Option.map_eq_some'] at hmk
    obtain ⟨dep, hdep, hmk⟩ := hmk
    obtain ⟨hlt, -, -⟩ := range_find?_facts hdep
    rw [← hmk]
    show dep ≤ d
    omega
  · have := map_filterMap_sublist
      (f := fun op => (minDepth db direction root d op.id).map (fun dep =>
        ({ opinion_id := op.id, depth := dep, case_name := op.case_name,
           court_id := op.court_id } : SubRow)))
      (g := fun r => r.opinion_id) (h := fun op => op.id)
      (fun a b hb => by
        rw [Option.map_eq_some'] at hb
        obtain ⟨dep, -, hb⟩ := hb
        rw [← hb])
      db.opinions
    exact hnd.sublist this
  · intro r hr
    obtain ⟨op, hop, hmk⟩ := List.mem_filterMap.mp hr
    rw [Option.map_eq_some'] at hmk
    obtain ⟨dep, hdep, hmk⟩ := hmk
    obtain ⟨hlt, hmem, hmin⟩ := range_find?_facts hdep
    rw [decide_eq_true_eq] at hmem
    constructor
    · rw [← hmk]
      exact mem_frontier_iff.mp hmem
    · intro k hw
      rw [← hmk] at hw ⊢
      simp only
      by_contra hcon
      push_neg at hcon
      have hkd : k < d + 1 := by omega
      have := hmin k hcon
      rw [decide_eq_true_eq] at this
      exact this (mem_frontier_iff.mpr hw)
  · rw [List.mem_map] at hroot
    obtain ⟨op, hop, hid⟩ := hroot
    refine ⟨⟨op.id, 0, op.case_name, op.court_id⟩, ?_, hid, rfl⟩
    apply List.mem_filterMap.mpr
    refine ⟨op, hop, ?_⟩
    rw [hid, minDepth_root]
    rfl

/-- Witness for C2 on a concrete two-node graph (an edge `1 → 2`), with
depth 1, outgoing direction. -/
theorem c2_subgraph_depth_properties_witness :
    (∀ r ∈ [(⟨1, 0, "A", "ca1"⟩ : SubRow), ⟨2, 1, "B", "ca2"⟩], r.depth ≤ 1)
    ∧ (∃ r ∈ [(⟨1, 0, "A", "ca1"⟩ : SubRow), ⟨2, 1, "B", "ca2"⟩],
        r.opinion_id = 1 ∧ r.depth = 0) := by
  have h := c2_subgraph_depth_properties
    ⟨[⟨1, "A", "ca1"⟩, ⟨2, "B", "ca2"⟩], [⟨1, some 2⟩]⟩ 1 1 "outgoing"
    [⟨1, 0, "A", "ca1"⟩, ⟨2, 1, "B", "ca2"⟩]
    [⟨1, 0, "A", "ca1"⟩, ⟨2, 1, "B", "ca2"⟩]
    rfl rfl (by decide) (by decide)
  exact ⟨h.2.1, h.2.2.2.2⟩

end Store

namespace Conf

theorem eval_pair_ex : evaluate_pair 0 [] exOpA exOpB = some exConflict := by
  simp [exOpA, exOpB, exConflict, evaluate_pair, topicOverlap, citationOverlap,
    citeStringsOf, hasOpposing, hasConflicting, OPPOSING_DISPOSITIONS,
    build_description, topicLabel, score_confidence, COURT_LEVEL_WEIGHT,
    min_def, max_def, pyRound4, List.dedup, List.intercalate, String.intercalate]
  norm_num [Int.floor_eq_iff]
  exact ⟨rfl, rfl⟩

theorem detect_ex : detect_conflicts 0 [exOpA, exOpB] [] none 0 = [exConflict] := by
  have hc : (exOpA.court_id = exOpB.court_id) = False := by simp [exOpA, exOpB]
  have hconf : ((0:ℚ) ≤ exConflict.confidence) = True := by norm_num [exConflict]
  simp [detect_conflicts, pairsOf, eval_pair_ex, sortByConfDesc, hc, hconf]

theorem mem_sortByConfDesc {l : List Conflict} {c : Conflict} :
    c ∈ sortByConfDesc l ↔ c ∈ l :=
  (List.mergeSort_perm l _).mem_iff

theorem sortByConfDesc_sorted (l : List Conflict) :
    (sortByConfDesc l).Pairwise (fun x y => y.confidence ≤ x.confidence) := by
  have h : (l.mergeSort (fun x y : Conflict => decide (y.confidence ≤ x.confidence))).Pairwise
      (fun x y : Conflict => decide (y.confidence ≤ x.confidence) = true) :=
    List.sorted_mergeSort
      (fun a b c hab hbc => by
        rw [decide_eq_true_eq] at hab hbc ⊢
        exact le_trans hbc hab)
      (fun a b => by
        rcases le_total b.confidence a.confidence with h | h <;> simp [h])
      l
  exact h.imp (fun hab => by rwa [decide_eq_true_eq] at hab)

theorem mem_detect_conflicts {today : Int} {ops : List OpinionX} {cits : List CiteRow}
    {court_pairs : Option (List (String × String))} {min_confidence : ℚ} {c : Conflict}
    (h : c ∈ detect_conflicts today ops cits court_pairs min_confidence) :
    ∃ ab ∈ pairsOf ops,
      ab.1.court_id ≠ ab.2.court_id
      ∧ evaluate_pair today cits ab.1 ab.2 = some c
      ∧ min_confidence ≤ c.confidence := by
  simp only [detect_conflicts] at h
  split at h
  · simp at h
  · rw [mem_sortByConfDesc] at h
    obtain ⟨ab, hab, hstep⟩ := List.mem_filterMap.mp h
    refine ⟨ab, hab, ?_⟩
    by_cases h1 : ab.1.court_id = ab.2.court_id
    · rw [if_pos h1] at hstep; cases hstep
    · rw [if_neg h1] at hstep
      split at hstep
      · cases hstep
      · split at hstep
        · rename_i c2 hev
          split at hstep
          · rename_i hmin
            cases hstep
            exact ⟨h1, hev, hmin⟩
          · cases hstep
        · cases hstep

theorem evaluate_pair_some {today : Int} {cits : List CiteRow} {a b : OpinionX}
    {c : Conflict} (h : evaluate_pair today cits a b = some c) :
    c.opinion_a_id = a.opinion_id ∧ c.opinion_b_id = b.opinion_id
    ∧ c.court_a = a.court_id ∧ c.court_b = b.court_id
    ∧ (∃ t, t ∈ a.legal_topics ∧ t ∈ b.legal_topics)
    ∧ (hasOpposing a b = true ∨ hasConflicting cits a.opinion_id b.opinion_id = true)
    ∧ c.confidence = pyRound4 (score_confidence today a b
        (topicOverlap a.legal_topics b.legal_topics).length
        (citationOverlap cits a.opinion_id b.opinion_id).length
        (hasOpposing a b) (hasConflicting cits a.opinion_id b.opinion_id)) := by
  simp only [evaluate_pair] at h
  split at h
  · cases h
  · rename_i hne
    split at h
    · cases h
    · rename_i hsig
      cases h
      refine ⟨rfl, rfl, rfl, rfl, ?_, ?_, rfl⟩
      · have hne' : topicOverlap a.legal_topics b.legal_topics ≠ [] := by
          intro hnil
          rw [hnil] at hne
          simp at hne
        obtain ⟨t, ht⟩ := List.exists_mem_of_ne_nil _ hne'
        unfold topicOverlap at ht
        rw [List.mem_filter] at ht
        exact ⟨t, List.mem_dedup.mp ht.1, by simpa using ht.2⟩
      · by_cases ho : hasOpposing a b = true
        · exact Or.inl ho
        · by_cases hcf : hasConflicting cits a.opinion_id b.opinion_id = true
          · exact Or.inr hcf
          · exact absurd ⟨by simpa using ho, by simpa using hcf⟩ hsig

theorem hasConflicting_exists {cits : List CiteRow} {ida idb : Nat}
    (h : hasConflicting cits ida idb = true) :
    ∃ s ta tb, s ∈ citeStringsOf cits ida ∧ s ∈ citeStringsOf cits idb
      ∧ citeTypeOf cits ida s = some ta ∧ citeTypeOf cits idb s = some tb
      ∧ (ta, tb) ∈ CONFLICTING_CITATION_PAIRS := by
  unfold hasConflicting at h
  rw [List.any_eq_true] at h
  obtain ⟨t, ht, hconf⟩ := h
  unfold citationOverlap at ht
  rw [List.mem_map] at ht
  obtain ⟨s, hs, rfl⟩ := ht
  rw [List.mem_filter] at hs
  unfold conflictingEntry at hconf
  cases hta : citeTypeOf cits ida s with
  | none => rw [hta] at hconf; exact Bool.noConfusion hconf
  | some ta =>
    cases htb : citeTypeOf cits idb s with
    | none => rw [hta, htb] at hconf; exact Bool.noConfusion hconf
    | some tb =>
      simp only [hta, htb, decide_eq_true_eq] at hconf
      exact ⟨s, ta, tb, hs.1, by simpa using hs.2, hta, htb, hconf⟩

/-- C6: every conflict returned by `detect_conflicts` comes from a pair of
opinions from different courts with a shared topic that exhibits an
opposing disposition or a conflicting treatment of a shared authority;
the list is filtered to `min_confidence ≤ confidence` and sorted by
confidence descending.  Same-court pairs and disjoint-topic pairs are
never reported. -/
theorem c6_detect_conflicts_filters (today : Int) (ops : List OpinionX)
    (cits : List CiteRow) (court_pairs : Option (List (String × String)))
    (min_confidence : ℚ) :
    (∀ c ∈ detect_conflicts today ops cits court_pairs min_confidence,
      min_confidence ≤ c.confidence
      ∧ ∃ a b, (a, b) ∈ pairsOf ops
          ∧ c.opinion_a_id = a.opinion_id ∧ c.opinion_b_id = b.opinion_id
          ∧ c.court_a = a.court_id ∧ c.court_b = b.court_id
          ∧ a.court_id ≠ b.court_id
          ∧ (∃ t, t ∈ a.legal_topics ∧ t ∈ b.legal_topics)
          ∧ ((a.disposition, b.disposition) ∈ OPPOSING_DISPOSITIONS
             ∨ ∃ s ta tb, s ∈ citeStringsOf cits a.opinion_id
                 ∧ s ∈ citeStringsOf cits b.opinion_id
                 ∧ citeTypeOf cits a.opinion_id s = some ta
                 ∧ citeTypeOf cits b.opinion_id s = some tb
                 ∧ (ta, tb) ∈ CONFLICTING_CITATION_PAIRS))
    ∧ (detect_conflicts today ops cits court_pairs min_confidence).Pairwise
        (fun x y => y.confidence ≤ x.confidence) := by
  constructor
  · intro c hc
    obtain ⟨ab, hab, hne, hev, hmin⟩ := mem_detect_conflicts hc
    obtain ⟨hia, hib, hca, hcb, htop, hsig, -⟩ := evaluate_pair_some hev
    refine ⟨hmin, ab.1, ab.2, ?_, hia, hib, hca, hcb, hne, htop, ?_⟩
    · rwa [Prod.mk.eta]
    · rcases hsig with ho | hcf
      · left
        unfold hasOpposing at ho
        rwa [decide_eq_true_eq] at ho
      · right
        exact hasConflicting_exists hcf
  · simp only [detect_conflicts]
    split
    · simp
    · exact sortByConfDesc_sorted _

/-- Witness for C6 at the concrete pair `exOpA`/`exOpB`. -/
theorem c6_detect_conflicts_filters_witness :
    (0:ℚ) ≤ exConflict.confidence
    ∧ ∃ a b, (a, b) ∈ pairsOf [exOpA, exOpB]
        ∧ exConflict.opinion_a_id = a.opinion_id
        ∧ exConflict.opinion_b_id = b.opinion_id
        ∧ exConflict.court_a = a.court_id ∧ exConflict.court_b = b.court_id
        ∧ a.court_id ≠ b.court_id
        ∧ (∃ t, t ∈ a.legal_topics ∧ t ∈ b.legal_topics)
        ∧ ((a.disposition, b.disposition) ∈ OPPOSING_DISPOSITIONS
           ∨ ∃ s ta tb, s ∈ citeStringsOf [] a.opinion_id
               ∧ s ∈ citeStringsOf [] b.opinion_id
               ∧ citeTypeOf [] a.opinion_id s = some ta
               ∧ citeTypeOf [] b.opinion_id s = some tb
               ∧ (ta, tb) ∈ CONFLICTING_CITATION_PAIRS) :=
  (c6_detect_conflicts_filters 0 [exOpA, exOpB] [] none 0).1 exConflict
    (by rw [detect_ex]; exact List.mem_singleton.mpr rfl)

end Conf

namespace Conf

theorem COURT_LEVEL_WEIGHT_bounds (level : String) :
    0 ≤ COURT_LEVEL_WEIGHT level ∧ COURT_LEVEL_WEIGHT level ≤ 1 := by
  unfold COURT_LEVEL_WEIGHT
  split_ifs <;> norm_num

theorem score_confidence_bounds (today : Int) (a b : OpinionX)
    (t k : Nat) (o c : Bool) :
    0 ≤ score_confidence today a b t k o c ∧ score_confidence today a b t k o c ≤ 1 := by
  unfold score_confidence
  constructor
  · apply le_min _ zero_le_one
    repeat' apply add_nonneg
    · norm_num
    · split_ifs <;> norm_num
    · split_ifs <;> norm_num
    · exact mul_nonneg (le_min (by positivity) zero_le_one) (by norm_num)
    · exact mul_nonneg (le_min (by positivity) zero_le_one) (by norm_num)
    · apply mul_nonneg _ (by norm_num)
      have ha := (COURT_LEVEL_WEIGHT_bounds a.court_level).1
      have hb := (COURT_LEVEL_WEIGHT_bounds b.court_level).1
      linarith
    · exact mul_nonneg (le_max_left _ _) (by norm_num)
  · exact min_le_right _ _

theorem pyRound4_bounds {x : ℚ} (h0 : 0 ≤ x) (h1 : x ≤ 1) :
    0 ≤ pyRound4 x ∧ pyRound4 x ≤ 1 := by
  unfold pyRound4
  have hy0 : (0:ℚ) ≤ x * 10000 := by positivity
  have hy1 : x * 10000 ≤ 10000 := by linarith
  have hf0 : (0:ℤ) ≤ ⌊x * 10000⌋ := Int.floor_nonneg.mpr hy0
  have hfle : ((⌊x * 10000⌋ : ℤ) : ℚ) ≤ x * 10000 := Int.floor_le _
  have hfup : ⌊x * 10000⌋ ≤ 10000 := by
    have h : ((⌊x * 10000⌋ : ℤ) : ℚ) ≤ ((10000 : ℤ) : ℚ) := by
      push_cast
      linarith
    exact_mod_cast h
  constructor
  · apply div_nonneg _ (by norm_num)
    have hf1 : (0:ℤ) ≤ ⌊x * 10000⌋ + 1 := by omega
    split_ifs
    · exact_mod_cast hf0
    · exact_mod_cast hf1
    · exact_mod_cast hf0
    · exact_mod_cast hf1
  · rw [div_le_one (by norm_num)]
    split_ifs with hlt hgt hev
    · exact_mod_cast hfup
    · -- round up: the floor cannot already be 10000, else the fraction ≤ 0
      have hne : ⌊x * 10000⌋ ≠ 10000 := by
        intro he
        rw [he] at hfle
        push_cast at hfle
        have : x * 10000 - ((10000:ℤ):ℚ) ≤ 0 := by push_cast; linarith
        rw [he] at hgt
        push_cast at hgt this
        linarith
      have : ⌊x * 10000⌋ + 1 ≤ 10000 := by omega
      push_cast
      exact_mod_cast this
    · exact_mod_cast hfup
    · have hhalf : x * 10000 - (⌊x * 10000⌋ : ℚ) = 1/2 := by
        push_cast at hlt hgt
        linarith
      have hne : ⌊x * 10000⌋ ≠ 10000 := by
        intro he
        rw [he] at hhalf hfle
        push_cast at hhalf hfle
        linarith
      have : ⌊x * 10000⌋ + 1 ≤ 10000 := by omega
      push_cast
      exact_mod_cast this

/-- C9: every conflict produced by `detect_conflicts` has confidence in
the closed interval `[0, 1]`. -/
theorem c9_confidence_bounds (today : Int) (ops : List OpinionX) (cits : List CiteRow)
    (court_pairs : Option (List (String × String))) (min_confidence : ℚ) :
    ∀ c ∈ detect_conflicts today ops cits court_pairs min_confidence,
      0 ≤ c.confidence ∧ c.confidence ≤ 1 := by
  intro c hc
  obtain ⟨ab, -, -, hev, -⟩ := mem_detect_conflicts hc
  obtain ⟨-, -, -, -, -, -, hconf⟩ := evaluate_pair_some hev
  rw [hconf]
  obtain ⟨hs0, hs1⟩ := score_confidence_bounds today ab.1 ab.2
    (topicOverlap ab.1.legal_topics ab.2.legal_topics).length
    (citationOverlap cits ab.1.opinion_id ab.2.opinion_id).length
    (hasOpposing ab.1 ab.2) (hasConflicting cits ab.1.opinion_id ab.2.opinion_id)
  exact pyRound4_bounds hs0 hs1

/-- Witness for C9 at the concrete pair `exOpA`/`exOpB`. -/
theorem c9_confidence_bounds_witness :
    0 ≤ exConflict.confidence ∧ exConflict.confidence ≤ 1 :=
  c9_confidence_bounds 0 [exOpA, exOpB] [] none 0 exConflict
    (by rw [detect_ex]; exact List.mem_singleton.mpr rfl)

end Conf

namespace Conf

theorem score_confidence_eq (today : Int) (a b : OpinionX) (t k : Nat) (o c : Bool) :
    score_confidence today a b t k o c =
      min ((if o then (30:ℚ)/100 else 0) + (if c then (25:ℚ)/100 else 0)
        + (15/100) * min ((t:ℚ)/5) 1 + (15/100) * min ((k:ℚ)/3) 1
        + (10/100) * ((COURT_LEVEL_WEIGHT a.court_level
            + COURT_LEVEL_WEIGHT b.court_level) / 2)
        + (5/100) * max 0 (1 - ((ageYears today a + ageYears today b) / 2) / 20)) 1 := by
  unfold score_confidence ageYears
  ring_nf

/-- C1 counterexample: on the pair `exOpA`/`exOpB` (both of the
`specialized` court level, one shared topic, opposing dispositions, zero
average age), the detector reports confidence `0.41`, while the weighted
sum of the claim — which takes `specialized` to weigh `0.25` from the
§4.4 table — is `0.405`. -/
theorem c1_counterexample :
    detect_conflicts 0 [exOpA, exOpB] [] none 0 = [exConflict]
    ∧ exConflict.confidence = 41/100
    ∧ claimConfidenceStated 0 [] exOpA exOpB = 81/200
    ∧ exConflict.confidence ≠ claimConfidenceStated 0 [] exOpA exOpB := by
  refine ⟨detect_ex, by norm_num [exConflict], ?_, ?_⟩
  · simp [exOpA, exOpB, claimConfidenceStated, topicOverlap, citationOverlap,
      citeStringsOf, hasOpposing, hasConflicting, OPPOSING_DISPOSITIONS,
      specCourtWeight, ageYears, min_def, max_def, List.dedup]
    norm_num
  · have h : claimConfidenceStated 0 [] exOpA exOpB = 81/200 := by
      simp [exOpA, exOpB, claimConfidenceStated, topicOverlap, citationOverlap,
        citeStringsOf, hasOpposing, hasConflicting, OPPOSING_DISPOSITIONS,
        specCourtWeight, ageYears, min_def, max_def, List.dedup]
      norm_num
    rw [h]
    norm_num [exConflict]

/-- C1 (amended): for every pair reported by `detect_conflicts`, the
conflict's confidence equals the claim's weighted sum — `+0.30` for an
opposing disposition pair, `+0.25` for conflicting citation treatment,
`+0.15·min(shared topics/5, 1)`, `+0.15·min(shared authorities/3, 1)`,
`+0.10·(average court-level weight)`, `+0.05·max(0, 1 − avg-age/20)` —
except that the court-level weights come from the conflict detector's own
per-tier table, in which `specialized` and unknown tiers weigh `0.3`
(not `0.25`), and the total, capped at 1.0, is rounded to four decimal
places. -/
theorem c1_confidence_formula_amended (today : Int) (ops : List OpinionX)
    (cits : List CiteRow) (court_pairs : Option (List (String × String)))
    (min_confidence : ℚ) :
    ∀ c ∈ detect_conflicts today ops cits court_pairs min_confidence,
      ∃ a b, (a, b) ∈ pairsOf ops
        ∧ c.opinion_a_id = a.opinion_id ∧ c.opinion_b_id = b.opinion_id
        ∧ c.confidence = claimConfidenceAmended today cits a b := by
  intro c hc
  obtain ⟨ab, hab, -, hev, -⟩ := mem_detect_conflicts hc
  obtain ⟨hia, hib, -, -, -, -, hconf⟩ := evaluate_pair_some hev
  refine ⟨ab.1, ab.2, by rwa [Prod.mk.eta], hia, hib, ?_⟩
  rw [hconf]
  unfold claimConfidenceAmended
  exact congrArg pyRound4 (score_confidence_eq today ab.1 ab.2 _ _ _ _)

/-- Witness for the amended C1 at the concrete pair `exOpA`/`exOpB`. -/
theorem c1_confidence_formula_amended_witness :
    ∃ a b, (a, b) ∈ pairsOf [exOpA, exOpB]
      ∧ exConflict.opinion_a_id = a.opinion_id
      ∧ exConflict.opinion_b_id = b.opinion_id
      ∧ exConflict.confidence = claimConfidenceAmended 0 [] a b :=
  c1_confidence_formula_amended 0 [exOpA, exOpB] [] none 0 exConflict
    (by rw [detect_ex]; exact List.mem_singleton.mpr rfl)

end Conf

namespace Cite

theorem filter_dropWhile_space (l : List Char) :
    (l.dropWhile isPySpace).filter notSpace = l.filter notSpace := by
  induction l with
  | nil => rfl
  | cons c t ih =>
    by_cases hc : isPySpace c = true
    · rw [List.dropWhile_cons_of_pos hc, ih, List.filter_cons_of_neg]
      simp [notSpace, hc]
    · rw [List.dropWhile_cons_of_neg hc]

theorem filter_stripWs (l : List Char) :
    (stripWs l).filter notSpace = l.filter notSpace := by
  unfold stripWs
  rw [List.filter_reverse, filter_dropWhile_space, List.filter_reverse,
    List.reverse_reverse, filter_dropWhile_space]

theorem filter_collapseWs (l : List Char) :
    (collapseWs l).filter notSpace = l.filter notSpace := by
  induction l with
  | nil => rfl
  | cons c t ih =>
    cases t with
    | nil =>
      cases hc : isPySpace c with
      | true =>
        have he : collapseWs [c] = [' '] := by simp [collapseWs, hc]
        rw [he, List.filter_cons_of_neg (by rw [show notSpace ' ' = false from rfl]; simp),
          List.filter_cons_of_neg (by simp [notSpace, hc])]
      | false =>
        have he : collapseWs [c] = [c] := by simp [collapseWs, hc]
        rw [he]
    | cons d r =>
      cases hc : isPySpace c with
      | true =>
        cases hd : isPySpace d with
        | true =>
          have he : collapseWs (c :: d :: r) = collapseWs (d :: r) := by
            simp [collapseWs, hc, hd]
          have hright : List.filter notSpace (c :: d :: r) = List.filter notSpace (d :: r) :=
            List.filter_cons_of_neg (by simp [notSpace, hc])
          rw [he, ih, hright]
        | false =>
          have he : collapseWs (c :: d :: r) = ' ' :: collapseWs (d :: r) := by
            simp [collapseWs, hc, hd]
          have hsp : List.filter notSpace (' ' :: collapseWs (d :: r)) =
              List.filter notSpace (collapseWs (d :: r)) :=
            List.filter_cons_of_neg (by rw [show notSpace ' ' = false from rfl]; simp)
          have hright : List.filter notSpace (c :: d :: r) = List.filter notSpace (d :: r) :=
            List.filter_cons_of_neg (by simp [notSpace, hc])
          rw [he, hsp, ih, hright]
      | false =>
        have he : collapseWs (c :: d :: r) = c :: collapseWs (d :: r) := by
          simp [collapseWs, hc]
        have hl : List.filter notSpace (c :: collapseWs (d :: r)) =
            c :: List.filter notSpace (collapseWs (d :: r)) :=
          List.filter_cons_of_pos (by simp [notSpace, hc])
        have hright : List.filter notSpace (c :: d :: r) = c :: List.filter notSpace (d :: r) :=
          List.filter_cons_of_pos (by simp [notSpace, hc])
        rw [he, hl, ih, hright]

theorem filter_normalizeReporter (l : List Char) :
    (normalizeReporter l).filter notSpace = l.filter notSpace := by
  unfold normalizeReporter
  rw [filter_stripWs, filter_collapseWs]

theorem matchRep_filter {toks : List RTok} {s m r : List Char}
    (hls : ∀ c ∈ litChars toks, isPySpace c = false)
    (h : matchRep toks s = some (m, r)) :
    m.filter notSpace = litChars toks := by
  induction toks generalizing s m r with
  | nil =>
    simp only [matchRep, Option.some.injEq, Prod.mk.injEq] at h
    obtain ⟨hm, -⟩ := h
    rw [← hm]
    rfl
  | cons t ts ih =>
    cases t with
    | lit c =>
      cases s with
      | nil => simp [matchRep] at h
      | cons x xs =>
        simp only [matchRep] at h
        split at h
        · rename_i hx
          rw [Option.map_eq_some'] at h
          obtain ⟨⟨m1, r1⟩, hmr, heq⟩ := h
          simp only [Prod.mk.injEq] at heq
          obtain ⟨hm, -⟩ := heq
          subst hx
          rw [← hm]
          have hc : isPySpace x = false := hls x (by simp [litChars])
          rw [List.filter_cons_of_pos (by simp [notSpace, hc])]
          rw [ih (fun c hc2 => hls c (by simp [litChars, hc2])) hmr]
          rfl
        · simp at h
    | ws =>
      simp only [matchRep] at h
      rw [Option.map_eq_some'] at h
      obtain ⟨⟨m1, r1⟩, hmr, heq⟩ := h
      simp only [Prod.mk.injEq] at heq
      obtain ⟨hm, -⟩ := heq
      rw [← hm, List.filter_append]
      have hsp : (s.takeWhile isPySpace).filter notSpace = [] := by
        rw [List.filter_eq_nil_iff]
        intro c hc
        have := List.mem_takeWhile_imp hc
        simp [notSpace, this]
      rw [hsp, List.nil_append]
      rw [ih (fun c hc2 => hls c (by simp [litChars, hc2])) hmr]
      rfl

theorem matchTail_some_reporter {vol : Nat} {volRaw sp1 repRaw s : List Char}
    {q : ParsedCitation} {rest : List Char}
    (h : matchTail vol volRaw sp1 repRaw s = some (q, rest)) :
    q.reporter = ⟨normalizeReporter repRaw⟩ := by
  simp only [matchTail] at h
  split at h
  · cases h
  · split at h
    · cases h
    · simp only [Option.some.injEq, Prod.mk.injEq] at h
      obtain ⟨hq, -⟩ := h
      rw [← hq]

theorem tryReps_reporter_from_table {vol : Nat} {volRaw sp1 : List Char}
    {alts : List (List RTok)} {s : List Char} {q : ParsedCitation} {rest : List Char}
    (h : tryReps vol volRaw sp1 alts s = some (q, rest)) :
    ∃ toks ∈ alts, ∃ m s2, matchRep toks s = some (m, s2)
      ∧ q.reporter = ⟨normalizeReporter m⟩ := by
  induction alts with
  | nil => simp [tryReps] at h
  | cons toks restAlts ih =>
    simp only [tryReps] at h
    split at h
    · rename_i m s2 hm
      split at h
      · rename_i res ht
        injection h with h2
        subst h2
        exact ⟨toks, by simp, m, s2, hm, matchTail_some_reporter ht⟩
      · obtain ⟨toks2, hmem, hrest⟩ := ih h
        exact ⟨toks2, by simp [hmem], hrest⟩
    · obtain ⟨toks2, hmem, hrest⟩ := ih h
      exact ⟨toks2, by simp [hmem], hrest⟩

theorem matchAt_reporter_from_table {s : List Char} {q : ParsedCitation}
    {rest : List Char} (h : matchAt s = some (q, rest)) :
    ∃ toks ∈ reporterToks, ∃ m sIn s2, matchRep toks sIn = some (m, s2)
      ∧ q.reporter = ⟨normalizeReporter m⟩ := by
  simp only [matchAt] at h
  split at h
  · cases h
  · split at h
    · cases h
    · obtain ⟨toks, hmem, m, s2, hm, hrep⟩ := tryReps_reporter_from_table h
      exact ⟨toks, hmem, m, _, s2, hm, hrep⟩

theorem searchAt_reporter_from_table {s : List Char} {q : ParsedCitation}
    {rest : List Char} (h : searchAt s = some (q, rest)) :
    ∃ toks ∈ reporterToks, ∃ m sIn s2, matchRep toks sIn = some (m, s2)
      ∧ q.reporter = ⟨normalizeReporter m⟩ := by
  induction s with
  | nil =>
    have : matchAt [] = none := rfl
    simp [searchAt, this] at h
  | cons c t ih =>
    simp only [searchAt] at h
    split at h
    · rename_i r hm
      cases h
      exact matchAt_reporter_from_table hm
    · exact ih h

end Cite

namespace Cite

theorem reporterToks_facts :
    ∀ toks ∈ reporterToks, (∀ c ∈ litChars toks, isPySpace c = false)
      ∧ litChars toks ≠ "F.".toList := by decide

theorem matchTail_exists (vol : Nat) (volRaw sp1 repRaw s : List Char)
    (h1 : (s.takeWhile isPySpace).isEmpty = false)
    (h2 : ((s.drop (s.takeWhile isPySpace).length).takeWhile isPyDigit).isEmpty = false) :
    ∃ q rest, matchTail vol volRaw sp1 repRaw s = some (q, rest)
      ∧ q.reporter = ⟨normalizeReporter repRaw⟩ := by
  simp only [matchTail, h1, h2, Bool.false_eq_true, if_false]
  exact ⟨_, _, rfl, rfl⟩

theorem matchAt_none_of_head_not_digit {c : Char} {t : List Char}
    (hc : c.isDigit = false) : matchAt (c :: t) = none := by
  simp [matchAt, List.takeWhile_cons, isPyDigit, hc]

theorem searchAt_append_nodigit :
    ∀ (pre q : List Char), (∀ ch ∈ pre, ch.isDigit = false) →
    searchAt (pre ++ q) = searchAt q := by
  intro pre
  induction pre with
  | nil => intro q _; rfl
  | cons c t ih =>
    intro q hnd
    rw [List.cons_append]
    have hm := matchAt_none_of_head_not_digit (t := t ++ q) (hnd c (List.mem_cons_self c t))
    simp only [searchAt, hm]
    exact ih q (fun ch hch => hnd ch (List.mem_cons_of_mem _ hch))

theorem matchAt_cite (suf : List Char) :
    ∃ q rest, matchAt ("789 F.3d 1034".toList ++ suf) = some (q, rest)
      ∧ q.reporter = "F.3d" := by
  have hstep : matchAt ("789 F.3d 1034".toList ++ suf) =
      matchTail 789 "789".toList " ".toList "F.3d".toList (" 1034".toList ++ suf) := rfl
  rw [hstep]
  obtain ⟨q, rest, hq, hrep⟩ :=
    matchTail_exists 789 "789".toList " ".toList "F.3d".toList
      (" 1034".toList ++ suf) rfl rfl
  exact ⟨q, rest, hq, by rw [hrep]; rfl⟩

theorem searchAt_cite (suf : List Char) :
    ∃ q rest, searchAt ("789 F.3d 1034".toList ++ suf) = some (q, rest)
      ∧ q.reporter = "F.3d" := by
  obtain ⟨q, rest, hq, hrep⟩ := matchAt_cite suf
  refine ⟨q, rest, ?_, hrep⟩
  have : "789 F.3d 1034".toList ++ suf = '7' :: ("89 F.3d 1034".toList ++ suf) := rfl
  rw [this] at hq ⊢
  simp only [searchAt, hq]

/-- C3 (amended): the reporter alternation is ordered longest-first, so
(a) no parse ever yields the truncated reporter `"F."` — on any input
whatsoever — and (b) on any text of the form `pre ++ "789 F.3d 1034" ++ suf`
in which `pre` contains no digit (so that no earlier, overlapping match
can swallow the citation), `parse_citation` yields reporter `"F.3d"`. -/
theorem c3_longest_match_amended :
    (∀ (s : String) (p : ParsedCitation), parse_citation s = some p →
      p.reporter ≠ "F.")
    ∧ (∀ pre suf : List Char, (∀ ch ∈ pre, ch.isDigit = false) →
        ∃ p : ParsedCitation,
          parse_citation ⟨pre ++ "789 F.3d 1034".toList ++ suf⟩ = some p
          ∧ p.reporter = "F.3d") := by
  constructor
  · intro s p hp hF
    unfold parse_citation at hp
    rw [Option.map_eq_some'] at hp
    obtain ⟨⟨q, rest⟩, hsearch, hq⟩ := hp
    obtain ⟨toks, hmem, m, sIn, s2, hm, hrep⟩ := searchAt_reporter_from_table hsearch
    obtain ⟨hls, hne⟩ := reporterToks_facts toks hmem
    apply hne
    have hrepP : p.reporter = ⟨normalizeReporter m⟩ := by rw [← hq]; exact hrep
    have hdata : normalizeReporter m = "F.".toList := by
      have := hrepP.symm.trans hF
      exact congrArg String.data this
    calc litChars toks = m.filter notSpace := (matchRep_filter hls hm).symm
      _ = (normalizeReporter m).filter notSpace := (filter_normalizeReporter m).symm
      _ = ("F.".toList).filter notSpace := by rw [hdata]
      _ = "F.".toList := rfl
  · intro pre suf hpre
    unfold parse_citation
    have htl : (⟨pre ++ "789 F.3d 1034".toList ++ suf⟩ : String).toList =
        pre ++ ("789 F.3d 1034".toList ++ suf) := by
      show pre ++ "789 F.3d 1034".toList ++ suf = _
      rw [List.append_assoc]
    rw [htl, searchAt_append_nodigit pre _ hpre]
    obtain ⟨q, rest, hq, hrep⟩ := searchAt_cite suf
    rw [hq]
    exact ⟨q, rfl, hrep⟩

/-- C3 counterexample: the text `"1 U.S. 2 789 F.3d 1034"` contains the
substring `"789 F.3d 1034"`, yet `parse_citation` returns the earlier
match, whose reporter is `"U.S."`, not `"F.3d"`. -/
theorem c3_counterexample :
    ("1 U.S. 2 " ++ "789 F.3d 1034" : String) = "1 U.S. 2 789 F.3d 1034"
    ∧ (parse_citation "1 U.S. 2 789 F.3d 1034").map (fun p => p.reporter) = some "U.S."
    ∧ ("U.S." : String) ≠ "F.3d" := by
  refine ⟨rfl, ?_, by decide⟩
  rfl

/-- Witness for the amended C3 at the concrete prefix `"see "` and an
empty suffix. -/
theorem c3_longest_match_amended_witness :
    ∃ p : ParsedCitation,
      parse_citation ⟨"see ".toList ++ "789 F.3d 1034".toList ++ []⟩ = some p
      ∧ p.reporter = "F.3d" :=
  c3_longest_match_amended.2 "see ".toList [] (by decide)

end Cite

namespace Cite

theorem dedupByKey_eq_keepFirsts :
    ∀ (ps : List ParsedCitation) (seen : List (Nat × String × Nat)),
      dedupByKey ps seen = keepFirsts (ps.filter (fun p => decide (citeKey p ∉ seen))) := by
  intro ps
  induction ps with
  | nil => intro seen; simp [dedupByKey, keepFirsts]
  | cons p ps ih =>
    intro seen
    by_cases hmem : citeKey p ∈ seen
    · rw [show dedupByKey (p :: ps) seen = dedupByKey ps seen by
        simp [dedupByKey, hmem]]
      rw [List.filter_cons_of_neg (by simp [hmem])]
      exact ih seen
    · rw [show dedupByKey (p :: ps) seen = p :: dedupByKey ps (citeKey p :: seen) by
        simp [dedupByKey, hmem]]
      rw [List.filter_cons_of_pos (by simp [hmem])]
      rw [show keepFirsts (p :: ps.filter (fun q => decide (citeKey q ∉ seen))) =
          p :: keepFirsts ((ps.filter (fun q => decide (citeKey q ∉ seen))).filter
            (fun q => decide (citeKey q ≠ citeKey p))) by
        simp [keepFirsts]]
      rw [List.filter_filter]
      rw [ih (citeKey p :: seen)]
      congr 1
      congr 1
      apply List.filter_congr
      intro q _
      simp only [List.mem_cons, not_or]
      rw [Bool.decide_and]

theorem keepFirsts_subset :
    ∀ (l : List ParsedCitation), ∀ q ∈ keepFirsts l, q ∈ l := by
  have main : ∀ (n : Nat) (l : List ParsedCitation), l.length ≤ n →
      ∀ q ∈ keepFirsts l, q ∈ l := by
    intro n
    induction n with
    | zero =>
      intro l hl q hq
      have hlen : l.length = 0 := by omega
      rw [List.length_eq_zero.mp hlen] at hq ⊢
      simpa [keepFirsts] using hq
    | succ n ih =>
      intro l hl q hq
      cases l with
      | nil => simpa [keepFirsts] using hq
      | cons p ps =>
        rw [show keepFirsts (p :: ps) =
            p :: keepFirsts (ps.filter (fun q => decide (citeKey q ≠ citeKey p))) by
          simp [keepFirsts]] at hq
        rcases List.mem_cons.mp hq with rfl | hq'
        · exact List.mem_cons_self _ _
        · have hqf := ih (ps.filter (fun q => decide (citeKey q ≠ citeKey p)))
            (le_trans (List.length_filter_le _ _) (by simpa using hl)) q hq'
          exact List.mem_cons_of_mem _ (List.mem_of_mem_filter hqf)
  exact fun l => main l.length l (le_refl _)

theorem keepFirsts_keys_nodup :
    ∀ (l : List ParsedCitation), ((keepFirsts l).map citeKey).Nodup := by
  have main : ∀ (n : Nat) (l : List ParsedCitation), l.length ≤ n →
      ((keepFirsts l).map citeKey).Nodup := by
    intro n
    induction n with
    | zero =>
      intro l hl
      have hlen : l.length = 0 := by omega
      rw [List.length_eq_zero.mp hlen]
      simp [keepFirsts]
    | succ n ih =>
      intro l hl
      cases l with
      | nil => simp [keepFirsts]
      | cons p ps =>
        rw [show keepFirsts (p :: ps) =
            p :: keepFirsts (ps.filter (fun q => decide (citeKey q ≠ citeKey p))) by
          simp [keepFirsts]]
        rw [List.map_cons, List.nodup_cons]
        constructor
        · intro hmem
          rw [List.mem_map] at hmem
          obtain ⟨q, hq, hkey⟩ := hmem
          have hqf := keepFirsts_subset _ q hq
          rw [List.mem_filter] at hqf
          rw [decide_eq_true_eq] at hqf
          exact hqf.2 hkey
        · exact ih _ (le_trans (List.length_filter_le _ _) (by simpa using hl))
  exact fun l => main l.length l (le_refl _)

/-- C5 (amended): `extract_citations` returns the non-overlapping matches
of the text de-duplicated by `(volume, reporter, page)`, keeping each
triple's first occurrence (with its pinpoint and year), so the output's
key triples are pairwise distinct; in particular, on the text
`"554 U.S. 570 (2008) see also 554 U.S. 570 (2008)"`, which contains the
citation twice verbatim, it returns exactly one `ParsedCitation`. -/
theorem c5_extract_dedup_amended :
    (∀ s : String, extract_citations s = keepFirsts (finditer s.toList))
    ∧ (∀ s : String, ((extract_citations s).map citeKey).Nodup)
    ∧ (extract_citations "554 U.S. 570 (2008) see also 554 U.S. 570 (2008)").map
        (fun p => (p.volume, p.reporter, p.page, p.pinpoint, p.year))
        = [(554, "U.S.", 570, none, some 2008)] := by
  have h1 : ∀ s : String, extract_citations s = keepFirsts (finditer s.toList) := by
    intro s
    unfold extract_citations
    rw [dedupByKey_eq_keepFirsts]
    congr 1
    rw [List.filter_eq_self]
    intro q _
    simp
  refine ⟨h1, ?_, by decide⟩
  intro s
  rw [h1]
  exact keepFirsts_keys_nodup _

/-- C5 counterexample: this text contains `"554 U.S. 570 (2008)"` twice
verbatim, yet `extract_citations` returns no `ParsedCitation` at all with
the key `(554, "U.S.", 570)` — the citations are swallowed by earlier
overlapping matches (`"12 U.S. 554"` and `"13 U.S. 554"`). -/
theorem c5_counterexample :
    ("12 U.S. " ++ "554 U.S. 570 (2008)" ++ " 13 U.S. " ++ "554 U.S. 570 (2008)" : String)
      = "12 U.S. 554 U.S. 570 (2008) 13 U.S. 554 U.S. 570 (2008)"
    ∧ ((extract_citations "12 U.S. 554 U.S. 570 (2008) 13 U.S. 554 U.S. 570 (2008)").filter
        (fun p => decide (citeKey p = (554, "U.S.", 570)))).length = 0 := by
  exact ⟨rfl, by decide⟩

end Cite
